import Mathlib

/-!
Verification development for the repository
`Understanding-XANES-by-Means-of-Descriptors-and-ML`.

The repository is a single notebook (`paper_calculations.ipynb`) of glue
code around the external PyFitIt library.  We shallowly embed the
notebook's own logic — the pickle caching pattern, the `loadSpectra`
sample construction, the `calc_descriptors` configuration, the assertion
checks, and the script's file traffic — together with minimal models of
the library primitives the notebook calls (`addParam`, `delParam`,
`unionWith`, `limit`, `addRow`, `addDescriptors`, `convertSampleTo`,
`generateMixtureOfSample`), modelled from the spec where the library
source is not part of the repository.  Numeric values are rationals;
float NaN / non-finite results are represented by an explicit `undef`
value.
-/

namespace Xanes

/-- A parameter value of a sample table: a number, a string (the `name`
column), or an undefined/NaN entry (pandas NaN, or a non-finite float
produced by unguarded division). -/
inductive PVal where
  | num : ℚ → PVal
  | str : String → PVal
  | undef : PVal
  deriving DecidableEq, Repr

/-- Subtraction on table values: numeric on numbers, `undef` otherwise. -/
def PVal.sub : PVal → PVal → PVal
  | PVal.num a, PVal.num b => PVal.num (a - b)
  | _, _ => PVal.undef

/-- Unguarded division on table values: numeric when both operands are
numbers and the divisor is nonzero; `undef` (the model of a non-finite
float) when the divisor is zero or an operand is not a number. -/
def PVal.div : PVal → PVal → PVal
  | PVal.num a, PVal.num b => if b = 0 then PVal.undef else PVal.num (a / b)
  | _, _ => PVal.undef

/-- A sample: a table of per-spectrum parameters (columns `paramNames`,
one `PVal` row per spectrum) together with the spectra themselves (one
intensity row per spectrum, aligned with the common `energy` axis).
This models the external library's sample container as the notebook
uses it. -/
structure Sample where
  paramNames : List String
  params : List (List PVal)
  energy : List ℚ
  spectra : List (List ℚ)
  deriving DecidableEq, Repr

/-- Modelled from the spec: the library's `Sample.addParam` with explicit
column data — appends one named column to the parameter table. -/
def addParam (name : String) (data : List PVal) (s : Sample) : Sample :=
  { s with
    paramNames := s.paramNames ++ [name]
    params := List.zipWith (fun row v => row ++ [v]) s.params data }

/-- Modelled from the spec: the library's `Sample.delParam` — deletes
every column whose name is in `names`. -/
def delParam (names : List String) (s : Sample) : Sample :=
  { s with
    paramNames := s.paramNames.filter (fun n => !(names.contains n))
    params := s.params.map (fun row =>
      ((s.paramNames.zip row).filter (fun p => !(names.contains p.1))).map (fun p => p.2)) }

/-- Modelled from the spec: the library's `Sample.unionWith` — appends
the rows of the second sample to the first (same columns, same energy
axis). -/
def unionWith (a b : Sample) : Sample :=
  { a with params := a.params ++ b.params, spectra := a.spectra ++ b.spectra }

/-- Modelled from the spec: the library's `Sample.limit(energyRange)` —
restricts the energy axis and every spectrum to the energy points lying
in the closed range `[lo, hi]`. -/
def limit (lo hi : ℚ) (s : Sample) : Sample :=
  { s with
    energy := s.energy.filter (fun e => decide (lo ≤ e) && decide (e ≤ hi))
    spectra := s.spectra.map (fun row =>
      ((s.energy.zip row).filter (fun p => decide (lo ≤ p.1) && decide (p.1 ≤ hi))).map
        (fun p => p.2)) }

/-- The linear congruential step used to model the library's seeded
pseudo-random generators. -/
def lcgNext (s : ℕ) : ℕ := (s * 1103515245 + 12345) % (2 ^ 31)

/-- The `k`-th pseudo-random value of the stream seeded with `seed`. -/
def lcgIter (seed : ℕ) : ℕ → ℕ
  | 0 => lcgNext seed
  | k + 1 => lcgNext (lcgIter seed k)

/-- The value of column `c` in a single parameter row (`undef` when the
column is absent). -/
def rowVal (names : List String) (row : List PVal) (c : String) : PVal :=
  match (names.zip row).find? (fun p => p.1 = c) with
  | some p => p.2
  | none => PVal.undef

/-- The values of the column named `c` (one entry per row; `undef` if
the column is absent from a row). -/
def getCol (c : String) (s : Sample) : List PVal :=
  s.params.map (fun row => rowVal s.paramNames row c)

end Xanes

namespace Xanes

/-!
## `calc_descriptors`

The notebook assembles five descriptor configuration dictionaries —
`efermi` (→ `Edge`), a stable minimum on `[7135, 7190]` (→ `Pit`), a
deep copy of it turned into a stable maximum on `[7120, 7150]`
(→ `WL`), `pca` (→ `PCA`) and `rel_pca` (→ `rPCA`) — hands them to the
library's `descriptor.addDescriptors`, and then adds the two derived
parameters `Pit_e-WL_e` and `WL-Pit_slope`.
-/

/-- One descriptor configuration dictionary (`dtype` models the `type`
key; `extremaType` and `energyInterval` are the sentinel `""` / `(0, 0)`
for the descriptor types that do not carry them). -/
structure DescriptorConfig where
  dtype : String
  extremaType : String
  energyInterval : ℚ × ℚ
  columnName : String
  deriving DecidableEq, Repr

/-- The notebook's `efermi` configuration: edge position, column
`Edge`. -/
def efermiConfig : DescriptorConfig :=
  { dtype := "efermi", extremaType := "", energyInterval := (0, 0), columnName := "Edge" }

/-- The notebook's `stableMin` configuration: stable minimum on
`[7135, 7190]`, column `Pit`. -/
def stableMin : DescriptorConfig :=
  { dtype := "stableExtrema", extremaType := "min", energyInterval := (7135, 7190),
    columnName := "Pit" }

/-- The notebook's `stableMax` configuration: a deep copy of
`stableMin` with the extremum type, energy interval and column name
reassigned. -/
def stableMax : DescriptorConfig :=
  { stableMin with extremaType := "max", energyInterval := (7120, 7150), columnName := "WL" }

/-- The notebook's `pca` configuration, column `PCA`. -/
def pcaConfig : DescriptorConfig :=
  { dtype := "pca", extremaType := "", energyInterval := (0, 0), columnName := "PCA" }

/-- The notebook's `rel_pca` configuration, column `rPCA`. -/
def relPcaConfig : DescriptorConfig :=
  { dtype := "rel_pca", extremaType := "", energyInterval := (0, 0), columnName := "rPCA" }

/-- The configuration list passed to `descriptor.addDescriptors`, in
the notebook's order. -/
def descriptorConfigs : List DescriptorConfig :=
  [stableMin, stableMax, efermiConfig, pcaConfig, relPcaConfig]

/-- Modelled from the spec: the scalar columns each descriptor type
contributes, as the notebook consumes them downstream — `efermi` gives
position and slope (`_e`, `_slope`), a stable extremum gives position,
intensity and curvature (`_e`, `_i`, `_d2`), and (relative) PCA gives
three component scores (`1`, `2`, `3`). -/
def descriptorColumns (c : DescriptorConfig) : List String :=
  if c.dtype = "efermi" then [c.columnName ++ "_e", c.columnName ++ "_slope"]
  else if c.dtype = "stableExtrema" then
    [c.columnName ++ "_e", c.columnName ++ "_i", c.columnName ++ "_d2"]
  else [c.columnName ++ "1", c.columnName ++ "2", c.columnName ++ "3"]

/-- Append a list of named columns to a sample, in order. -/
def addParams (cols : List (String × List PVal)) (s : Sample) : Sample :=
  cols.foldl (fun acc cd => addParam cd.1 cd.2 acc) s

/-- The columns a single descriptor configuration contributes: one
value per spectrum, computed by the external extraction routine
`extract` from the configuration and the spectrum alone. -/
def descrColData (extract : DescriptorConfig → String → List ℚ → ℚ)
    (spectra : List (List ℚ)) (c : DescriptorConfig) : List (String × List PVal) :=
  (descriptorColumns c).map (fun col =>
    (col, spectra.map (fun row => PVal.num (extract c col row))))

/-- Modelled from the spec: PyFitIt `descriptor.addDescriptors(sample,
configs)` (the library is external to this repository) — adds, for each
configuration, its scalar feature columns computed from each spectrum,
and returns the augmented sample together with the indices of the
spectra for which the computation succeeded. -/
def addDescriptors (extract : DescriptorConfig → String → List ℚ → ℚ)
    (good : Sample → List ℕ) (configs : List DescriptorConfig) (s : Sample) :
    Sample × List ℕ :=
  (addParams ((configs.map (descrColData extract s.spectra)).flatten) s, good s)

/-- The notebook's `rel_` sibling of the PCA prebuild-data file:
`os.path.split` at the last slash and re-join with a `rel_`-prefixed
base name. -/
def relPcaFileName (p : String) : String :=
  let base := (p.data.reverse.takeWhile (fun c => decide (c ≠ '/'))).reverse
  let dir := p.data.take (p.data.length - (base.length + 1))
  String.mk (dir ++ "/".data ++ "rel_".data ++ base)

/-- The notebook's `calc_descriptors`: run `addDescriptors` with the
five configurations, then add `Pit_e-WL_e` (= `Pit_e − WL_e`) and
`WL-Pit_slope` (= `(WL_i − Pit_i) / (Pit_e − WL_e)`, the division
unguarded) computed from the augmented parameter table. -/
def calc_descriptors (extract : DescriptorConfig → String → List ℚ → ℚ)
    (good : Sample → List ℕ) (usePcaPrebuildData : Bool) (pcaPrebuildDataFile : String)
    (sample : Sample) : Sample × List ℕ :=
  let r := addDescriptors extract good descriptorConfigs sample
  let s1 := r.1
  let s2 := addParam "Pit_e-WL_e"
    (List.zipWith PVal.sub (getCol "Pit_e" s1) (getCol "WL_e" s1)) s1
  let s3 := addParam "WL-Pit_slope"
    (List.zipWith PVal.div
      (List.zipWith PVal.sub (getCol "WL_i" s1) (getCol "Pit_i" s1))
      (List.zipWith PVal.sub (getCol "Pit_e" s1) (getCol "WL_e" s1))) s2
  (s3, r.2)

/-!
## Mixture generation
-/

/-- One generated mixture: the indices and names of its components in
the single-component sample, their concentrations, the combined
spectrum, the weighted-average labels, and the descriptor columns the
`addDescrFunc` argument computes from the combined spectrum. -/
structure MixRow where
  componentIdx : List ℕ
  concentrations : List ℚ
  spectrum : List ℚ
  labels : List (String × PVal)
  componentNames : List PVal
  descr : List (String × PVal)
  deriving Repr

/-- Weighted combination of table values: the weighted sum when every
component value is numeric, `undef` otherwise. -/
def pvalWeighted (l : List (ℚ × PVal)) : PVal :=
  match l.mapM (fun p =>
      match p.2 with
      | PVal.num a => some (p.1 * a)
      | _ => none) with
  | some qs => PVal.num qs.sum
  | none => PVal.undef

/-- Pointwise weighted combination of spectra. -/
def weightedSpectrum : List (ℚ × List ℚ) → List ℚ
  | [] => []
  | h :: t => t.foldl (fun acc p => List.zipWith (fun a b => a + p.1 * b) acc p.2)
      (h.2.map (fun v => h.1 * v))

/-- The value of column `c` at row `i` of a sample. -/
def getVal (s : Sample) (i : ℕ) (c : String) : PVal :=
  (getCol c s).getD i PVal.undef

/-- Modelled from the spec: one mixture drawn by
`mixture.generateMixtureOfSample` — `ncomp` random component rows of
the sample and `ncomp` random positive concentrations normalized to
sum 1; the spectrum is the concentration-weighted combination of the
component spectra and each label the concentration-weighted average of
the component label values; everything is a deterministic function of
the seed and the mixture's index `t`. -/
def mixRow (s : Sample) (label_names : List String) (ncomp seed t : ℕ) : MixRow :=
  let m := s.spectra.length
  let idx := (List.range ncomp).map (fun j => lcgIter seed (t * (2 * ncomp) + j) % m)
  let raw := (List.range ncomp).map
    (fun j => ((1 + lcgIter seed (t * (2 * ncomp) + ncomp + j) % 1000 : ℕ) : ℚ))
  let total := raw.sum
  let ws := raw.map (fun r => r / total)
  { componentIdx := idx
    concentrations := ws
    spectrum := weightedSpectrum (ws.zip (idx.map (fun i => s.spectra.getD i [])))
    labels := label_names.map (fun c => (c, pvalWeighted (ws.zip (idx.map (fun i => getVal s i c)))))
    componentNames := idx.map (fun i => getVal s i "name")
    descr := [] }

/-- Modelled from the spec: PyFitIt
`mixture.generateMixtureOfSample(size, componentCount, sample,
label_names, addDescrFunc, randomSeed, componentNameColumn='name')`
(the library is external to this repository) — generates `size`
mixtures of `componentCount` random components each, with labels the
concentration-weighted averages, and computes descriptor columns of
each combined spectrum with `addDescrFunc`; deterministic in
`randomSeed`. -/
def generateMixtureOfSample (size componentCount : ℕ) (sample : Sample)
    (label_names : List String) (addDescrFunc : List ℚ → List (String × PVal))
    (randomSeed : ℕ) : List MixRow :=
  (List.range size).map (fun t =>
    let r := mixRow sample label_names componentCount randomSeed t
    { r with descr := addDescrFunc r.spectrum })

/-!
## The pickle-caching pattern

Each cached stage of the notebook guards on `os.path.exists` of its
first pickle file, loads both pickle files when the guard holds, and
otherwise computes both objects and saves them with `utils.save_pkl`.
The file system is a map from paths to stored objects; `load_pkl`
returns exactly the object `save_pkl` stored (the pickle round-trip
contract).
-/

/-- A file system storing pickled objects of type `V` (and, separately,
any other files): `none` means the path does not exist. -/
def FS (V : Type) := String → Option V

/-- One cached notebook stage: guard on `os.path.exists guardPath`; if
it holds, load the objects stored at `guardPath` and `path2` (failing
if `path2` is missing, as `load_pkl` would); otherwise run `compute`
and save its two results to the two paths.  Returns the two in-memory
objects, whether the stage recomputed, and the resulting file system. -/
def runStage {V : Type} (fs : FS V) (guardPath path2 : String)
    (compute : Unit → V × V) : Option ((V × V) × Bool × FS V) :=
  match fs guardPath with
  | some v1 =>
    match fs path2 with
    | some v2 => some ((v1, v2), false, fs)
    | none => none
  | none =>
    let r := compute ()
    some (r, true,
      fun p => if p = guardPath then some r.1 else if p = path2 then some r.2 else fs p)

/-- The guard/second cache paths of the three cached stages, as written
in the notebook. -/
def stagePaths : List (String × String) :=
  [("generated/data_initial.pkl", "generated/data_initial_IHS_generated.pkl"),
   ("generated/data.pkl", "generated/data_IHS_gen.pkl"),
   ("generated/mix_data.pkl", "generated/mix_data_IHS_generated.pkl")]

/-!
## Experimental true values (`exp_true_values.csv` handling)

The notebook looks the base name of each file of `exp/` up in the
`name` column of `exp_true_values.csv`; with at least one match it
asserts the match is unique and keeps the non-NaN columns of the row,
with no match it keeps only the name.
-/

/-- One row of `exp_true_values.csv`: the `name` cell and the remaining
columns, `none` standing for a NaN cell. -/
structure TrueRow where
  rname : String
  vals : List (String × Option ℚ)
  deriving DecidableEq, Repr

/-- The non-NaN columns of a row, with their values. -/
def nonNaNCols (vals : List (String × Option ℚ)) : List (String × ℚ) :=
  vals.filterMap (fun cv => cv.2.map (fun q => (cv.1, q)))

/-- The dictionary of true values the notebook builds for the
experimental file of base name `name`: `np.where` on the `name` column,
`assert len(i) == 1` when a match exists (`none` = assertion failure /
script abort), the non-NaN columns of the matched row on success, and
only the name when there is no match. -/
def expTrueValues (tbl : List TrueRow) (name : String) : Option (String × List (String × ℚ)) :=
  match tbl.filter (fun r => r.rname = name) with
  | [] => some (name, [])
  | [r] => some (r.rname, nonNaNCols r.vals)
  | _ => none

/-- Modelled from the spec: the library's `Sample.addRow(spectrum, dict)`
— appends one spectrum and one parameter row; the `name` column receives
the dictionary's name, every other column its dictionary value, NaN
(`undef`) when absent. -/
def addRow (sp : List ℚ) (d : String × List (String × ℚ)) (s : Sample) : Sample :=
  { s with
    params := s.params ++ [s.paramNames.map (fun c =>
      if c = "name" then PVal.str d.1
      else
        match d.2.find? (fun cv => cv.1 = c) with
        | some cv => PVal.num cv.2
        | none => PVal.undef)]
    spectra := s.spectra ++ [sp] }

/-!
## IHS conversion and the per-(CN, valence) sub-sample pipeline
-/

/-- Modelled from the spec: the seeded improved-hypercube point
generator behind `sampling.convertSampleTo(·, 'IHS', n, ranges, seed)` —
`n` parameter rows, each placing every ranged parameter inside its
range, deterministically from the seed. -/
def ihsPoints (ranges : List (String × ℚ × ℚ)) (n seed : ℕ) : List (List PVal) :=
  (List.range n).map (fun i =>
    (ranges.zip (List.range ranges.length)).map (fun rj =>
      PVal.num (rj.1.2.1 +
        (rj.1.2.2 - rj.1.2.1) * ((lcgIter seed (i * ranges.length + rj.2)) % 1000) / 1000)))

/-- Modelled from the spec: PyFitIt `sampling.convertSampleTo(data,
'IHS', n, ranges, seed)` (the library is external to this repository) —
replaces the sample's rows by `n` IHS-generated parameter rows inside
`ranges` and interpolates a spectrum at each new row; a deterministic
function of the sample, the ranges and the seed. -/
def convertSampleTo (interp : List PVal → List ℚ) (ranges : List (String × ℚ × ℚ))
    (n seed : ℕ) (s : Sample) : Sample :=
  let pts := ihsPoints ranges n seed
  { s with params := pts, spectra := pts.map interp }

/-- The notebook's adjustment of `project.geometryParamRanges` before
IHS conversion: the lower bound of `r1` and `r2` (when present) is set
to 1.8. -/
def clampRanges (ranges : List (String × ℚ × ℚ)) : List (String × ℚ × ℚ) :=
  ranges.map (fun r => if r.1 = "r1" || r.1 = "r2" then (r.1, ((9 : ℚ) / 5, r.2.2)) else r)

/-- The external inputs of one `(CN, valence)` iteration of
`loadSpectra`: the pre-calculated sample read from
`samples/sample_CN`, the per-row `calcDist` values (mean and standard
deviation of the sorted Fe–O distances, computed from the molecule by
the external library), the spectra interpolation used by IHS
conversion, and the project's geometry parameter ranges. -/
structure SubInput where
  raw : Sample
  distVals : List (ℚ × ℚ)
  interp : List PVal → List ℚ
  ranges : List (String × ℚ × ℚ)

/-- The sample a `(CN, valence)` iteration works on: the raw sample, or
its IHS conversion (500 points, seed 0) when `convertToIHS` is set —
exactly the literals of the notebook. -/
def subsampleData (convertToIHS : Bool) (inp : SubInput) : Sample :=
  if convertToIHS then convertSampleTo inp.interp (clampRanges inp.ranges) 500 0 inp.raw
  else inp.raw

/-- The name given to row `i` of the `(CN, valence)` sub-sample. -/
def mkName (CN valence i : ℕ) : String :=
  "cn" ++ toString CN ++ "v" ++ toString valence ++ "_" ++ toString i

/-- The body of one `(CN, valence)` iteration of `loadSpectra`:
optional IHS conversion; `addParam` of `FeODist`/`stdDist` (from
`calcDist`), of constant columns `CN` and `valence`; `delParam` of the
original geometry parameters; smoothing of the spectra; the
`assert np.all(data.spectra.values < 15)` sanity check (`none` =
assertion failure / script abort); finally `addParam` of the row names
`cnCNvVAL_i`. -/
def processSubsample (smooth : List (List ℚ) → List (List ℚ)) (convertToIHS : Bool)
    (CN valence : ℕ) (inp : SubInput) : Option Sample :=
  let data := subsampleData convertToIHS inp
  let n := data.params.length
  let oldParams := data.paramNames
  let d := addParam "FeODist" (inp.distVals.map (fun p => PVal.num p.1)) data
  let d := addParam "stdDist" (inp.distVals.map (fun p => PVal.num p.2)) d
  let d := addParam "CN" (List.replicate n (PVal.num CN)) d
  let d := addParam "valence" (List.replicate n (PVal.num valence)) d
  let d := delParam oldParams d
  let d : Sample := { d with spectra := smooth d.spectra }
  if d.spectra.all (fun row => row.all (fun v => decide (v < 15))) then
    some (addParam "name"
      ((List.range n).map (fun i => PVal.str (mkName CN valence i))) d)
  else none

/-- The `(CN, valence)` pairs of the notebook's double loop:
`for CN in range(2, 7): for valence in [2, 3]`. -/
def cnValencePairs : List (ℕ × ℕ) :=
  [(2, 2), (2, 3), (3, 2), (3, 3), (4, 2), (4, 3), (5, 2), (5, 3), (6, 2), (6, 3)]

/-- The experimental-spectra loop of `loadSpectra`: for each file of
`exp/` (base name and spectrum), build the true-value dictionary and
`addRow` it; `none` when the uniqueness assertion fails. -/
def addExpRows (tbl : List TrueRow) (files : List (String × List ℚ)) (s : Sample) :
    Option Sample :=
  files.foldlM (fun acc f => (expTrueValues tbl f.1).map (fun d => addRow f.2 d acc)) s

/-- The notebook's `loadSpectra`: process every `(CN, valence)`
sub-sample, union them, append the experimental rows, and restrict the
result to the energy range `[lo, hi]` (the notebook calls it with
`[7100, 7200]`). -/
def loadSpectra (smooth : ℕ → ℕ → List (List ℚ) → List (List ℚ))
    (inputs : ℕ → ℕ → SubInput) (expFiles : List (String × List ℚ))
    (tbl : List TrueRow) (lo hi : ℚ) (convertToIHS : Bool) : Option Sample := do
  let subs ← cnValencePairs.mapM (fun cv =>
    processSubsample (smooth cv.1 cv.2) convertToIHS cv.1 cv.2 (inputs cv.1 cv.2))
  match subs with
  | [] => none
  | h :: t =>
    let all := t.foldl unionWith h
    let all ← addExpRows tbl expFiles all
    return limit lo hi all

/-!
## The script's file traffic

Every output path the notebook passes to a saving / plotting / table
routine, and every input path it reads, collected from the source cell
by cell (the f-string loops over `cn in range(2, 7)` expanded).
-/

/-- `True` iff the path `p` lies under the directory prefix `dir`
(plain character-list prefix test). -/
def underDir (dir p : String) : Bool := dir.data.isPrefixOf p.data

/-- All paths the notebook writes: sample plots, IHS sample folders,
pickled caches, PCA prebuild data (and their `rel_` siblings), stable
extrema plots, scatter plots, analytic-formula tables, mixture CSVs,
descriptor-quality tables, and the cross-validation result folder. -/
def scriptWrites : List String :=
  ["results/sample_adaptive_CN2_wo_pre-edge.png",
   "results/sample_adaptive_CN3_wo_pre-edge.png",
   "results/sample_adaptive_CN4_wo_pre-edge.png",
   "results/sample_adaptive_CN5_wo_pre-edge.png",
   "results/sample_adaptive_CN6_wo_pre-edge.png",
   "generated/samples/sample_2_IHS_generated",
   "generated/samples/sample_3_IHS_generated",
   "generated/samples/sample_4_IHS_generated",
   "generated/samples/sample_5_IHS_generated",
   "generated/samples/sample_6_IHS_generated",
   "generated/data_initial.pkl",
   "generated/data_initial_IHS_generated.pkl",
   "results/exp_spectra.png",
   "generated/stable_extrema",
   "generated/pca_data.pkl",
   relPcaFileName "generated/pca_data.pkl",
   "generated/pca_data_IHS_gen.pkl",
   relPcaFileName "generated/pca_data_IHS_gen.pkl",
   "generated/data.pkl",
   "generated/data_IHS_gen.pkl",
   "results/scatter_plots",
   "results/analytic_labels_by_features.txt",
   "results/analytic_features_by_labels.txt",
   "generated/mix_data.pkl",
   "generated/mix_data_IHS_generated.pkl",
   "generated/mix_data.csv",
   "generated/mix_data_IHS_generated.csv",
   "results/scatter_mix_plots",
   "results/table_5_CN", "results/table_5_FeODist", "results/table_5_valence",
   "results/table_6_CN", "results/table_6_FeODist", "results/table_6_valence",
   "results/RBF_v3_cn6_CV"]

/-- The fixed input paths the notebook reads (the files under `exp/`
are read too, with dynamic names from `os.listdir('exp')`). -/
def scriptInputReads : List String :=
  ["samples/sample_2", "samples/sample_3", "samples/sample_4",
   "samples/sample_5", "samples/sample_6",
   "Fe_project.py", "exp", "exp_true_values.csv"]

/-- The parameter rows a `(CN, valence)` sub-sample contributes to the
combined sample: row `i` holds exactly `FeODist`, `stdDist`, `CN`,
`valence` and the name `cnCNvVAL_i`. -/
def expectedBlock (dv : List (ℚ × ℚ)) (CN valence : ℕ) : List (List PVal) :=
  dv.enum.map (fun p =>
    [PVal.num p.2.1, PVal.num p.2.2, PVal.num CN, PVal.num valence,
     PVal.str (mkName CN valence p.1)])

/-- A trivial sample with no parameter rows and no spectra, used to
evaluate the pipeline theorems at a concrete input. -/
def wSample : Sample := { paramNames := [], params := [], energy := [7150], spectra := [] }

/-- A sub-sample input built on `wSample`. -/
def wSubInput : SubInput :=
  { raw := wSample, distVals := [], interp := fun _ => [], ranges := [] }

/-- A one-spectrum sample whose only intensity is 1, with one (empty)
parameter row. -/
def wSampleOne : Sample :=
  { paramNames := [], params := [[]], energy := [7150], spectra := [[1]] }

/-- A sub-sample input built on `wSampleOne`. -/
def wSubInputOne : SubInput :=
  { raw := wSampleOne, distVals := [(2, 0)], interp := fun _ => [], ranges := [] }

/-- A single-row sample carrying numeric labels, used to evaluate the
mixture theorems at a concrete input. -/
def wMixSample : Sample :=
  { paramNames := ["CN", "FeODist", "stdDist", "valence", "name"]
    params := [[PVal.num 4, PVal.num 2, PVal.num 0, PVal.num 3, PVal.str "cn4v3_0"]]
    energy := [7150]
    spectra := [[10]] }

/-- A concrete descriptor-extraction routine used to evaluate the
descriptor theorems at a concrete input. -/
def wExtract : DescriptorConfig → String → List ℚ → ℚ := fun _ col _ =>
  if col = "Pit_e" then 2
  else if col = "WL_e" then 1
  else if col = "WL_i" then 5
  else if col = "Pit_i" then 3
  else 0

/-- A concrete good-spectrum-indices routine for the same purpose. -/
def wGood : Sample → List ℕ := fun _ => [0]

/-- Caching behaviour of one stage: with both cache files present the
computation is skipped and the cached objects are used unchanged; with
the guard file absent the stage computes, saves, and a second run loads
the very same objects without recomputation. -/
def stageCachingOK {V : Type} (g p2 : String) : Prop :=
  (∀ (fs : FS V) (compute : Unit → V × V) (v1 v2 : V),
      fs g = some v1 → fs p2 = some v2 →
      runStage fs g p2 compute = some ((v1, v2), false, fs)) ∧
  (∀ (fs : FS V) (compute : Unit → V × V),
      fs g = none →
      ∃ fs', runStage fs g p2 compute = some (compute (), true, fs') ∧
        fs' g = some (compute ()).1 ∧ fs' p2 = some (compute ()).2 ∧
        runStage fs' g p2 compute = some (compute (), false, fs'))

end Xanes

namespace Xanes

/-- The full column list `descriptor.addDescriptors` contributes for
the notebook's five configurations, over a given spectra table. -/
def descrCols (extract : DescriptorConfig → String → List ℚ → ℚ)
    (sp : List (List ℚ)) : List (String × List PVal) :=
  (descriptorConfigs.map (descrColData extract sp)).flatten

/-!
# Infrastructure lemmas
-/

theorem rowVal_not_mem (names : List String) (row : List PVal) (c : String)
    (h : ¬ c ∈ names) : rowVal names row c = PVal.undef := by
  unfold rowVal
  have hf : (names.zip row).find? (fun p => p.1 = c) = none := by
    rw [List.find?_eq_none]
    intro p hp
    have h1 := (List.of_mem_zip hp).1
    simp only [decide_eq_true_eq]
    intro hEq
    exact h (hEq ▸ h1)
  rw [hf]

theorem rowVal_append (names : List String) (row : List PVal) (ns2 : List String)
    (vs2 : List PVal) (c : String) (h : names.length = row.length) :
    rowVal (names ++ ns2) (row ++ vs2) c =
      if c ∈ names then rowVal names row c else rowVal ns2 vs2 c := by
  unfold rowVal
  rw [List.zip_append h, List.find?_append]
  by_cases hc : c ∈ names
  · rw [if_pos hc]
    cases hf : (names.zip row).find? (fun p => p.1 = c) with
    | some p => rfl
    | none =>
      exfalso
      rw [List.find?_eq_none] at hf
      obtain ⟨i, hi, hci⟩ := List.mem_iff_getElem.mp hc
      have hiz : i < (names.zip row).length := by
        rw [List.length_zip]
        omega
      have hmem : (names.zip row)[i] ∈ names.zip row := List.getElem_mem hiz
      have hcontra := hf _ hmem
      simp only [List.getElem_zip, decide_eq_true_eq] at hcontra
      exact hcontra hci
  · rw [if_neg hc]
    have hf : (names.zip row).find? (fun p => p.1 = c) = none := by
      rw [List.find?_eq_none]
      intro p hp
      have h1 := (List.of_mem_zip hp).1
      simp only [decide_eq_true_eq]
      intro hEq
      exact hc (hEq ▸ h1)
    rw [hf, Option.none_or]

theorem rowVal_single_self (n : String) (v : PVal) : rowVal [n] [v] n = v := by
  simp [rowVal, List.find?]

theorem rowVal_single_ne (n c : String) (v : PVal) (h : c ≠ n) :
    rowVal [n] [v] c = PVal.undef := by
  simp only [rowVal, List.zip_cons_cons, List.zip_nil_right, List.find?]
  have : (decide (n = c)) = false := by
    simp only [decide_eq_false_iff_not]
    exact fun hEq => h hEq.symm
  rw [this]

theorem addParam_paramNames (n : String) (d : List PVal) (s : Sample) :
    (addParam n d s).paramNames = s.paramNames ++ [n] := rfl

theorem addParam_spectra (n : String) (d : List PVal) (s : Sample) :
    (addParam n d s).spectra = s.spectra := rfl

theorem addParam_params_length (n : String) (d : List PVal) (s : Sample)
    (hd : d.length = s.params.length) :
    (addParam n d s).params.length = s.params.length := by
  simp [addParam, hd]

theorem addParam_rowlen (n : String) (d : List PVal) (s : Sample)
    (hWF : ∀ row ∈ s.params, row.length = s.paramNames.length) :
    ∀ row ∈ (addParam n d s).params, row.length = (addParam n d s).paramNames.length := by
  intro row hr
  simp only [addParam] at hr ⊢
  obtain ⟨i, hi, rfl⟩ := List.mem_iff_getElem.mp hr
  rw [List.getElem_zipWith]
  have hip : i < s.params.length := by
    rw [List.length_zipWith] at hi
    omega
  simp [hWF _ (List.getElem_mem hip)]

theorem getCol_addParam_ne (c n : String) (d : List PVal) (s : Sample) (hcn : c ≠ n)
    (hWF : ∀ row ∈ s.params, row.length = s.paramNames.length)
    (hd : d.length = s.params.length) :
    getCol c (addParam n d s) = getCol c s := by
  unfold getCol
  apply List.ext_getElem
  · simp [addParam, hd]
  · intro i h1 h2
    simp only [List.getElem_map, addParam, List.getElem_zipWith]
    have hip : i < s.params.length := by
      simpa using h2
    rw [rowVal_append _ _ _ _ _ (hWF _ (List.getElem_mem hip)).symm]
    by_cases hc : c ∈ s.paramNames
    · rw [if_pos hc]
    · rw [if_neg hc, rowVal_not_mem _ _ _ hc, rowVal_single_ne _ _ _ hcn]

theorem getCol_addParam_self (n : String) (d : List PVal) (s : Sample)
    (hn : ¬ n ∈ s.paramNames)
    (hWF : ∀ row ∈ s.params, row.length = s.paramNames.length)
    (hd : d.length = s.params.length) :
    getCol n (addParam n d s) = d := by
  unfold getCol
  apply List.ext_getElem
  · simp [addParam, hd]
  · intro i h1 h2
    simp only [List.getElem_map, addParam, List.getElem_zipWith]
    have hip : i < s.params.length := by
      simp only [List.length_map, addParam, List.length_zipWith, hd] at h1
      omega
    rw [rowVal_append _ _ _ _ _ (hWF _ (List.getElem_mem hip)).symm]
    rw [if_neg hn, rowVal_single_self]

end Xanes

namespace Xanes

/-!
# Claim theorems
-/

theorem stageCachingOK_of_ne {V : Type} (g p2 : String) (hne : g ≠ p2) :
    stageCachingOK (V := V) g p2 := by
  constructor
  · intro fs compute v1 v2 h1 h2
    simp [runStage, h1, h2]
  · intro fs compute h
    refine ⟨fun p => if p = g then some (compute ()).1
      else if p = p2 then some (compute ()).2 else fs p, ?_, ?_, ?_, ?_⟩
    · simp [runStage, h]
    · simp
    · simp [hne.symm]
    · simp [runStage, hne.symm]

/-- C1: each of the three cached pipeline stages (initial data loading,
descriptor computation, mixture generation) skips its computation and
uses the cached objects unchanged when its pickle cache files exist,
and otherwise computes, saves to the cache files, and a second run then
yields the same in-memory objects without recomputation. -/
theorem caching_stages_ok (V : Type) :
    stageCachingOK (V := V) "generated/data_initial.pkl"
      "generated/data_initial_IHS_generated.pkl" ∧
    stageCachingOK (V := V) "generated/data.pkl" "generated/data_IHS_gen.pkl" ∧
    stageCachingOK (V := V) "generated/mix_data.pkl"
      "generated/mix_data_IHS_generated.pkl" :=
  ⟨stageCachingOK_of_ne _ _ (by decide),
   stageCachingOK_of_ne _ _ (by decide),
   stageCachingOK_of_ne _ _ (by decide)⟩

/-- Witness for C1 at a concrete file system: the cache files of the
first stage are present, so the stage returns the cached objects
without recomputation, leaving the file system unchanged. -/
theorem caching_stages_ok_witness :
    runStage (V := ℕ)
      (fun p => if p = "generated/data_initial.pkl" then some 1
        else if p = "generated/data_initial_IHS_generated.pkl" then some 2 else none)
      "generated/data_initial.pkl" "generated/data_initial_IHS_generated.pkl"
      (fun _ => (3, 4)) =
    some ((1, 2), false,
      fun p => if p = "generated/data_initial.pkl" then some 1
        else if p = "generated/data_initial_IHS_generated.pkl" then some 2 else none) :=
  (caching_stages_ok ℕ).1.1 _ _ 1 2 (by decide) (by decide)

end Xanes

namespace Xanes

/-- C2: for each file of `exp/`, the notebook aborts outright (an
assertion failure, with no recovery) when more than one row of
`exp_true_values.csv` has `name` equal to the file's base name; with
exactly one matching row the dictionary added for the spectrum carries
the matched name and the non-NaN columns of that row; with no matching
row it carries only the name. -/
theorem exp_name_match_ok (tbl : List TrueRow) (name : String) :
    (2 ≤ (tbl.filter (fun r => r.rname = name)).length →
      expTrueValues tbl name = none) ∧
    (∀ r, tbl.filter (fun r' => r'.rname = name) = [r] →
      expTrueValues tbl name = some (name, nonNaNCols r.vals)) ∧
    (tbl.filter (fun r => r.rname = name) = [] →
      expTrueValues tbl name = some (name, [])) := by
  refine ⟨?_, ?_, ?_⟩
  · intro h
    unfold expTrueValues
    cases hf : tbl.filter (fun r => r.rname = name) with
    | nil => rw [hf] at h; simp at h
    | cons a l =>
      cases l with
      | nil => rw [hf] at h; simp at h
      | cons b l2 => rfl
  · intro r hf
    have hr : r ∈ tbl.filter (fun r' => r'.rname = name) := by
      rw [hf]; exact List.mem_singleton_self r
    have hname : r.rname = name := by
      have := (List.mem_filter.mp hr).2
      simpa using this
    unfold expTrueValues
    rw [hf, ← hname]
  · intro hf
    unfold expTrueValues
    rw [hf]

/-- Witness for C2: a one-row table matched by name `a`; the resulting
dictionary keeps the name and the non-NaN column `CN`, dropping the NaN
column `x`. -/
theorem exp_name_match_ok_witness :
    expTrueValues [⟨"a", [("CN", some 3), ("x", none)]⟩] "a" =
      some ("a", [("CN", (3 : ℚ))]) := by
  have h := (exp_name_match_ok [⟨"a", [("CN", some 3), ("x", none)]⟩] "a").2.1
    ⟨"a", [("CN", some 3), ("x", none)]⟩ (by decide)
  simpa [nonNaNCols] using h

/-- The per-sub-sample pipeline, written as a single conditional: the
sanity assertion guards the construction of the final sub-sample. -/
theorem processSubsample_eq (smooth : List (List ℚ) → List (List ℚ)) (flag : Bool)
    (CN valence : ℕ) (inp : SubInput) :
    processSubsample smooth flag CN valence inp =
      (if (smooth (subsampleData flag inp).spectra).all
          (fun row => row.all (fun v => decide (v < 15))) then
        some (addParam "name"
          ((List.range (subsampleData flag inp).params.length).map
            (fun i => PVal.str (mkName CN valence i)))
          { delParam (subsampleData flag inp).paramNames
              (addParam "valence"
                (List.replicate (subsampleData flag inp).params.length (PVal.num valence))
                (addParam "CN"
                  (List.replicate (subsampleData flag inp).params.length (PVal.num CN))
                  (addParam "stdDist" (inp.distVals.map (fun p => PVal.num p.2))
                    (addParam "FeODist" (inp.distVals.map (fun p => PVal.num p.1))
                      (subsampleData flag inp))))) with
            spectra := smooth (subsampleData flag inp).spectra })
      else none) := rfl

/-- C3: for every `(CN, valence)` sub-sample, when every smoothed
intensity is below 15 the assertion's abort branch is unreachable and
the sub-sample is produced with exactly the smoothed spectra; when some
smoothed intensity reaches 15 the script aborts. -/
theorem smoothed_below_15_assert (smooth : List (List ℚ) → List (List ℚ))
    (convertToIHS : Bool) (CN valence : ℕ) (inp : SubInput) :
    ((∀ row ∈ smooth (subsampleData convertToIHS inp).spectra, ∀ v ∈ row, v < 15) →
      ∃ out, processSubsample smooth convertToIHS CN valence inp = some out ∧
        out.spectra = smooth (subsampleData convertToIHS inp).spectra) ∧
    ((∃ row ∈ smooth (subsampleData convertToIHS inp).spectra, ∃ v ∈ row, 15 ≤ v) →
      processSubsample smooth convertToIHS CN valence inp = none) := by
  constructor
  · intro h
    rw [processSubsample_eq, if_pos]
    · exact ⟨_, rfl, rfl⟩
    · simp only [List.all_eq_true, decide_eq_true_eq]
      exact h
  · intro h
    rw [processSubsample_eq, if_neg]
    simp only [List.all_eq_true, decide_eq_true_eq]
    push_neg
    obtain ⟨row, hr, v, hv, hge⟩ := h
    exact ⟨row, hr, v, hv, by linarith⟩

/-- Witness for C3: the one-spectrum input whose only intensity is 1
passes the assertion and is produced with its (identically) smoothed
spectra. -/
theorem smoothed_below_15_assert_witness :
    ∃ out, processSubsample id false 2 3 wSubInputOne = some out ∧
      out.spectra = id (subsampleData false wSubInputOne).spectra :=
  (smoothed_below_15_assert id false 2 3 wSubInputOne).1 (by decide)

end Xanes

namespace Xanes

/-- C7: every path the script writes lies under `generated/` or
`results/`; no write ever targets the input files — anything under
`exp/` or `samples/`, `exp_true_values.csv`, or the project file — so
the inputs are consumed read-only. -/
theorem script_writes_confined :
    (∀ w ∈ scriptWrites, underDir "generated/" w = true ∨ underDir "results/" w = true) ∧
    (∀ w ∈ scriptWrites, underDir "exp/" w = false ∧ underDir "samples/" w = false ∧
      w ≠ "exp_true_values.csv" ∧ w ≠ "Fe_project.py") ∧
    (∀ r ∈ scriptInputReads, r ∉ scriptWrites) ∧
    (∀ name : String, ("exp/" ++ name) ∉ scriptWrites) := by
  refine ⟨by decide, by decide, by decide, ?_⟩
  intro name hmem
  have h2 : ∀ w ∈ scriptWrites, underDir "exp/" w = false := by decide
  have h3 := h2 _ hmem
  unfold underDir at h3
  rw [String.data_append] at h3
  have h4 : ("exp/".data).isPrefixOf ("exp/".data ++ name.data) = true := by
    rw [List.isPrefixOf_iff_prefix]
    exact List.prefix_append _ _
  rw [h4] at h3
  simp at h3

end Xanes

namespace Xanes

/-- C10: the randomized stages are deterministic — `loadSpectra` with
`convertToIHS = True` equals itself on equal inputs and wires the fixed
seed 0 into the IHS conversion, and the mixture generation of the
notebook (`size = 5000`, `randomSeed = 1`) equals itself on equal
inputs and yields exactly 5000 mixtures. -/
theorem fixed_seed_determinism (smooth : ℕ → ℕ → List (List ℚ) → List (List ℚ))
    (inputs : ℕ → ℕ → SubInput) (expFiles : List (String × List ℚ)) (tbl : List TrueRow)
    (s : Sample) (f : List ℚ → List (String × PVal)) :
    loadSpectra smooth inputs expFiles tbl 7100 7200 true =
      loadSpectra smooth inputs expFiles tbl 7100 7200 true ∧
    (∀ CN valence : ℕ, subsampleData true (inputs CN valence) =
      convertSampleTo (inputs CN valence).interp
        (clampRanges (inputs CN valence).ranges) 500 0 (inputs CN valence).raw) ∧
    generateMixtureOfSample 5000 2 s ["CN", "FeODist", "stdDist", "valence"] f 1 =
      generateMixtureOfSample 5000 2 s ["CN", "FeODist", "stdDist", "valence"] f 1 ∧
    (generateMixtureOfSample 5000 2 s ["CN", "FeODist", "stdDist", "valence"] f 1).length
      = 5000 := by
  refine ⟨rfl, fun _ _ => rfl, rfl, ?_⟩
  simp [generateMixtureOfSample]

end Xanes

namespace Xanes

/-- `mixRow` with two components, unfolded. -/
theorem mixRow_two (s : Sample) (ln : List String) (seed t : ℕ) :
    mixRow s ln 2 seed t =
      { componentIdx := [lcgIter seed (t * 4) % s.spectra.length,
          lcgIter seed (t * 4 + 1) % s.spectra.length]
        concentrations :=
          [((1 + lcgIter seed (t * 4 + 2) % 1000 : ℕ) : ℚ) /
              (((1 + lcgIter seed (t * 4 + 2) % 1000 : ℕ) : ℚ) +
                (((1 + lcgIter seed (t * 4 + 2 + 1) % 1000 : ℕ) : ℚ) + 0)),
           ((1 + lcgIter seed (t * 4 + 2 + 1) % 1000 : ℕ) : ℚ) /
              (((1 + lcgIter seed (t * 4 + 2) % 1000 : ℕ) : ℚ) +
                (((1 + lcgIter seed (t * 4 + 2 + 1) % 1000 : ℕ) : ℚ) + 0))]
        spectrum := weightedSpectrum
          [(((1 + lcgIter seed (t * 4 + 2) % 1000 : ℕ) : ℚ) /
              (((1 + lcgIter seed (t * 4 + 2) % 1000 : ℕ) : ℚ) +
                (((1 + lcgIter seed (t * 4 + 2 + 1) % 1000 : ℕ) : ℚ) + 0)),
            s.spectra.getD (lcgIter seed (t * 4) % s.spectra.length) []),
           (((1 + lcgIter seed (t * 4 + 2 + 1) % 1000 : ℕ) : ℚ) /
              (((1 + lcgIter seed (t * 4 + 2) % 1000 : ℕ) : ℚ) +
                (((1 + lcgIter seed (t * 4 + 2 + 1) % 1000 : ℕ) : ℚ) + 0)),
            s.spectra.getD (lcgIter seed (t * 4 + 1) % s.spectra.length) [])]
        labels := ln.map (fun c => (c, pvalWeighted
          [(((1 + lcgIter seed (t * 4 + 2) % 1000 : ℕ) : ℚ) /
              (((1 + lcgIter seed (t * 4 + 2) % 1000 : ℕ) : ℚ) +
                (((1 + lcgIter seed (t * 4 + 2 + 1) % 1000 : ℕ) : ℚ) + 0)),
            getVal s (lcgIter seed (t * 4) % s.spectra.length) c),
           (((1 + lcgIter seed (t * 4 + 2 + 1) % 1000 : ℕ) : ℚ) /
              (((1 + lcgIter seed (t * 4 + 2) % 1000 : ℕ) : ℚ) +
                (((1 + lcgIter seed (t * 4 + 2 + 1) % 1000 : ℕ) : ℚ) + 0)),
            getVal s (lcgIter seed (t * 4 + 1) % s.spectra.length) c)]))
        componentNames := [getVal s (lcgIter seed (t * 4) % s.spectra.length) "name",
          getVal s (lcgIter seed (t * 4 + 1) % s.spectra.length) "name"]
        descr := [] } := rfl

end Xanes

namespace Xanes

/-- Weighted combination of two numeric table values. -/
theorem pvalWeighted_two (w1 w2 q1 q2 : ℚ) :
    pvalWeighted [(w1, PVal.num q1), (w2, PVal.num q2)] = PVal.num (w1 * q1 + w2 * q2) := by
  show PVal.num (w1 * q1 + (w2 * q2 + 0)) = _
  rw [add_zero]

/-- C4: every mixture generated by the notebook's call (two components)
is a weighted combination of exactly two spectra of the
single-component sample, with positive concentrations summing to 1,
and each of the labels `CN`, `FeODist`, `stdDist`, `valence` is the
weighted average, with the same weights, of the two components' values. -/
theorem mixture_two_components (s : Sample) (f : List ℚ → List (String × PVal))
    (size seed : ℕ) (hm : 0 < s.spectra.length) :
    ∀ row ∈ generateMixtureOfSample size 2 s ["CN", "FeODist", "stdDist", "valence"] f seed,
      ∃ i1 i2 w1 w2, i1 < s.spectra.length ∧ i2 < s.spectra.length ∧
        0 < w1 ∧ 0 < w2 ∧ w1 + w2 = 1 ∧
        row.componentIdx = [i1, i2] ∧ row.concentrations = [w1, w2] ∧
        row.spectrum = List.zipWith (fun a b => w1 * a + w2 * b)
          (s.spectra.getD i1 []) (s.spectra.getD i2 []) ∧
        ∀ c ∈ (["CN", "FeODist", "stdDist", "valence"] : List String), ∀ q1 q2 : ℚ,
          getVal s i1 c = PVal.num q1 → getVal s i2 c = PVal.num q2 →
          (c, PVal.num (w1 * q1 + w2 * q2)) ∈ row.labels := by
  intro row hrow
  simp only [generateMixtureOfSample, List.mem_map, List.mem_range] at hrow
  obtain ⟨t, ht, rfl⟩ := hrow
  rw [mixRow_two]
  have h0a : (0 : ℚ) < ((1 + lcgIter seed (t * 4 + 2) % 1000 : ℕ) : ℚ) :=
    Nat.cast_pos.mpr (by omega)
  have h0b : (0 : ℚ) < ((1 + lcgIter seed (t * 4 + 2 + 1) % 1000 : ℕ) : ℚ) :=
    Nat.cast_pos.mpr (by omega)
  have htot : (0 : ℚ) < ((1 + lcgIter seed (t * 4 + 2) % 1000 : ℕ) : ℚ) +
      (((1 + lcgIter seed (t * 4 + 2 + 1) % 1000 : ℕ) : ℚ) + 0) := by
    rw [add_zero]; linarith
  refine ⟨lcgIter seed (t * 4) % s.spectra.length,
    lcgIter seed (t * 4 + 1) % s.spectra.length, _, _,
    Nat.mod_lt _ hm, Nat.mod_lt _ hm, div_pos h0a htot, div_pos h0b htot, ?_, rfl, rfl,
    ?_, ?_⟩
  · rw [div_add_div_same, div_eq_one_iff_eq htot.ne']
    ring
  · simp only [weightedSpectrum, List.foldl_cons, List.foldl_nil, List.zipWith_map_left]
  · intro c hc q1 q2 hq1 hq2
    refine List.mem_map.mpr ⟨c, hc, ?_⟩
    rw [hq1, hq2, pvalWeighted_two]

end Xanes

namespace Xanes

/-- Witness for C4: the one-row sample with numeric labels satisfies
the mixture characterization for the notebook's seed. -/
theorem mixture_two_components_witness :
    0 < wMixSample.spectra.length ∧
    ∀ row ∈ generateMixtureOfSample 1 2 wMixSample ["CN", "FeODist", "stdDist", "valence"]
        (fun _ => []) 1,
      ∃ i1 i2 w1 w2, i1 < wMixSample.spectra.length ∧ i2 < wMixSample.spectra.length ∧
        0 < w1 ∧ 0 < w2 ∧ w1 + w2 = 1 ∧
        row.componentIdx = [i1, i2] ∧ row.concentrations = [w1, w2] ∧
        row.spectrum = List.zipWith (fun a b => w1 * a + w2 * b)
          (wMixSample.spectra.getD i1 []) (wMixSample.spectra.getD i2 []) ∧
        ∀ c ∈ (["CN", "FeODist", "stdDist", "valence"] : List String), ∀ q1 q2 : ℚ,
          getVal wMixSample i1 c = PVal.num q1 → getVal wMixSample i2 c = PVal.num q2 →
          (c, PVal.num (w1 * q1 + w2 * q2)) ∈ row.labels :=
  ⟨by decide, mixture_two_components wMixSample (fun _ => []) 1 1 (by decide)⟩

end Xanes

namespace Xanes

/-- Witness for C7: the descriptor cache file is one of the writes and
lies under `generated/`. -/
theorem script_writes_confined_witness :
    underDir "generated/" "generated/data.pkl" = true ∨
    underDir "results/" "generated/data.pkl" = true :=
  script_writes_confined.1 "generated/data.pkl" (by decide)

end Xanes

namespace Xanes

theorem addParams_cons (cd : String × List PVal) (cols : List (String × List PVal))
    (s : Sample) : addParams (cd :: cols) s = addParams cols (addParam cd.1 cd.2 s) := rfl

theorem addParams_append (l1 l2 : List (String × List PVal)) (s : Sample) :
    addParams (l1 ++ l2) s = addParams l2 (addParams l1 s) := by
  simp [addParams, List.foldl_append]

theorem addParams_paramNames (cols : List (String × List PVal)) (s : Sample) :
    (addParams cols s).paramNames = s.paramNames ++ cols.map Prod.fst := by
  induction cols generalizing s with
  | nil => simp [addParams]
  | cons cd cols ih =>
    rw [addParams_cons, ih, addParam_paramNames]
    simp

theorem addParams_spectra (cols : List (String × List PVal)) (s : Sample) :
    (addParams cols s).spectra = s.spectra := by
  induction cols generalizing s with
  | nil => rfl
  | cons cd cols ih => rw [addParams_cons, ih, addParam_spectra]

theorem addParams_params_length (cols : List (String × List PVal)) (s : Sample)
    (hcols : ∀ cd ∈ cols, cd.2.length = s.params.length) :
    (addParams cols s).params.length = s.params.length := by
  induction cols generalizing s with
  | nil => rfl
  | cons cd cols ih =>
    rw [addParams_cons, ih]
    · exact addParam_params_length _ _ _ (hcols cd (List.mem_cons_self _ _))
    · intro cd' h
      rw [addParam_params_length _ _ _ (hcols cd (List.mem_cons_self _ _))]
      exact hcols cd' (List.mem_cons_of_mem _ h)

theorem addParams_rowlen (cols : List (String × List PVal)) (s : Sample)
    (hWF : ∀ row ∈ s.params, row.length = s.paramNames.length) :
    ∀ row ∈ (addParams cols s).params,
      row.length = (addParams cols s).paramNames.length := by
  induction cols generalizing s with
  | nil => exact hWF
  | cons cd cols ih =>
    rw [addParams_cons]
    exact ih _ (addParam_rowlen _ _ _ hWF)

theorem getCol_addParams_ne (cols : List (String × List PVal)) (s : Sample) (c : String)
    (hc : ∀ cd ∈ cols, c ≠ cd.1)
    (hWF : ∀ row ∈ s.params, row.length = s.paramNames.length)
    (hcols : ∀ cd ∈ cols, cd.2.length = s.params.length) :
    getCol c (addParams cols s) = getCol c s := by
  induction cols generalizing s with
  | nil => rfl
  | cons cd cols ih =>
    rw [addParams_cons]
    rw [ih _ (fun cd' h => hc cd' (List.mem_cons_of_mem _ h))
      (addParam_rowlen _ _ _ hWF) ?_]
    · exact getCol_addParam_ne c cd.1 cd.2 s (hc cd (List.mem_cons_self _ _)) hWF
        (hcols cd (List.mem_cons_self _ _))
    · intro cd' h
      rw [addParam_params_length _ _ _ (hcols cd (List.mem_cons_self _ _))]
      exact hcols cd' (List.mem_cons_of_mem _ h)

theorem getCol_addParams_first (pre post : List (String × List PVal)) (c : String)
    (d : List PVal) (s : Sample)
    (hpre : ∀ cd ∈ pre, c ≠ cd.1) (hpost : ∀ cd ∈ post, c ≠ cd.1)
    (hcs : ¬ c ∈ s.paramNames)
    (hWF : ∀ row ∈ s.params, row.length = s.paramNames.length)
    (hcols : ∀ cd ∈ pre ++ (c, d) :: post, cd.2.length = s.params.length) :
    getCol c (addParams (pre ++ (c, d) :: post) s) = d := by
  rw [addParams_append, addParams_cons]
  have hlpre : (addParams pre s).params.length = s.params.length :=
    addParams_params_length _ _ (fun cd h => hcols cd (List.mem_append_left _ h))
  have hdlen : d.length = (addParams pre s).params.length := by
    rw [hlpre]
    exact hcols (c, d) (List.mem_append_right _ (List.mem_cons_self _ _))
  have hWFpre := addParams_rowlen pre s hWF
  have hnotmem : ¬ c ∈ (addParams pre s).paramNames := by
    rw [addParams_paramNames]
    intro hmem
    rcases List.mem_append.mp hmem with h | h
    · exact hcs h
    · obtain ⟨cd, hcd, hfst⟩ := List.mem_map.mp h
      exact hpre cd hcd hfst.symm
  rw [getCol_addParams_ne post _ c hpost (addParam_rowlen _ _ _ hWFpre) ?_]
  · exact getCol_addParam_self c d (addParams pre s) hnotmem hWFpre hdlen
  · intro cd h
    rw [addParam_params_length _ _ _ hdlen, hlpre]
    exact hcols cd (List.mem_append_right _ (List.mem_cons_of_mem _ h))

end Xanes

namespace Xanes

theorem descrCols_eq (extract : DescriptorConfig → String → List ℚ → ℚ)
    (sp : List (List ℚ)) :
    descrCols extract sp =
      [("Pit_e", sp.map (fun r => PVal.num (extract stableMin "Pit_e" r))),
       ("Pit_i", sp.map (fun r => PVal.num (extract stableMin "Pit_i" r))),
       ("Pit_d2", sp.map (fun r => PVal.num (extract stableMin "Pit_d2" r))),
       ("WL_e", sp.map (fun r => PVal.num (extract stableMax "WL_e" r))),
       ("WL_i", sp.map (fun r => PVal.num (extract stableMax "WL_i" r))),
       ("WL_d2", sp.map (fun r => PVal.num (extract stableMax "WL_d2" r))),
       ("Edge_e", sp.map (fun r => PVal.num (extract efermiConfig "Edge_e" r))),
       ("Edge_slope", sp.map (fun r => PVal.num (extract efermiConfig "Edge_slope" r))),
       ("PCA1", sp.map (fun r => PVal.num (extract pcaConfig "PCA1" r))),
       ("PCA2", sp.map (fun r => PVal.num (extract pcaConfig "PCA2" r))),
       ("PCA3", sp.map (fun r => PVal.num (extract pcaConfig "PCA3" r))),
       ("rPCA1", sp.map (fun r => PVal.num (extract relPcaConfig "rPCA1" r))),
       ("rPCA2", sp.map (fun r => PVal.num (extract relPcaConfig "rPCA2" r))),
       ("rPCA3", sp.map (fun r => PVal.num (extract relPcaConfig "rPCA3" r)))] := rfl

theorem calc_descriptors_fst (extract : DescriptorConfig → String → List ℚ → ℚ)
    (good : Sample → List ℕ) (u : Bool) (pf : String) (s : Sample) :
    (calc_descriptors extract good u pf s).1 =
      addParam "WL-Pit_slope"
        (List.zipWith PVal.div
          (List.zipWith PVal.sub
            (getCol "WL_i" (addParams (descrCols extract s.spectra) s))
            (getCol "Pit_i" (addParams (descrCols extract s.spectra) s)))
          (List.zipWith PVal.sub
            (getCol "Pit_e" (addParams (descrCols extract s.spectra) s))
            (getCol "WL_e" (addParams (descrCols extract s.spectra) s))))
        (addParam "Pit_e-WL_e"
          (List.zipWith PVal.sub
            (getCol "Pit_e" (addParams (descrCols extract s.spectra) s))
            (getCol "WL_e" (addParams (descrCols extract s.spectra) s)))
          (addParams (descrCols extract s.spectra) s)) := rfl

theorem calc_descriptors_snd (extract : DescriptorConfig → String → List ℚ → ℚ)
    (good : Sample → List ℕ) (u : Bool) (pf : String) (s : Sample) :
    (calc_descriptors extract good u pf s).2 = good s := rfl

end Xanes

namespace Xanes

theorem getCol_length (c : String) (s : Sample) :
    (getCol c s).length = s.params.length := by simp [getCol]

/-- C6: `calc_descriptors` extends the sample with the edge-position
descriptor (`Edge` columns, from the `efermi` configuration), the
stable-minimum descriptor on `[7135, 7190]` (`Pit` columns), the
stable-maximum white-line descriptor on `[7120, 7150]` (`WL` columns)
and the PCA descriptors (`PCA`/`rPCA` columns), each computed from the
spectrum alone, and returns the augmented sample together with the
good-spectrum indices. -/
theorem calc_descriptors_adds_descriptors
    (extract : DescriptorConfig → String → List ℚ → ℚ) (good : Sample → List ℕ)
    (u : Bool) (pf : String) (s : Sample)
    (hWF : ∀ row ∈ s.params, row.length = s.paramNames.length)
    (hps : s.params.length = s.spectra.length)
    (hnew : ∀ c ∈ (["Pit_e", "Pit_i", "Pit_d2", "WL_e", "WL_i", "WL_d2", "Edge_e",
      "Edge_slope", "PCA1", "PCA2", "PCA3", "rPCA1", "rPCA2", "rPCA3", "Pit_e-WL_e",
      "WL-Pit_slope"] : List String), ¬ c ∈ s.paramNames) :
    (calc_descriptors extract good u pf s).1.paramNames =
      s.paramNames ++ ["Pit_e", "Pit_i", "Pit_d2", "WL_e", "WL_i", "WL_d2", "Edge_e",
        "Edge_slope", "PCA1", "PCA2", "PCA3", "rPCA1", "rPCA2", "rPCA3", "Pit_e-WL_e",
        "WL-Pit_slope"] ∧
    (calc_descriptors extract good u pf s).2 = good s ∧
    stableMin.energyInterval = (7135, 7190) ∧ stableMin.extremaType = "min" ∧
    stableMax.energyInterval = (7120, 7150) ∧ stableMax.extremaType = "max" ∧
    getCol "Pit_e" (calc_descriptors extract good u pf s).1 =
      s.spectra.map (fun r => PVal.num (extract stableMin "Pit_e" r)) ∧
    getCol "WL_e" (calc_descriptors extract good u pf s).1 =
      s.spectra.map (fun r => PVal.num (extract stableMax "WL_e" r)) ∧
    getCol "Edge_e" (calc_descriptors extract good u pf s).1 =
      s.spectra.map (fun r => PVal.num (extract efermiConfig "Edge_e" r)) ∧
    getCol "PCA1" (calc_descriptors extract good u pf s).1 =
      s.spectra.map (fun r => PVal.num (extract pcaConfig "PCA1" r)) ∧
    getCol "rPCA1" (calc_descriptors extract good u pf s).1 =
      s.spectra.map (fun r => PVal.num (extract relPcaConfig "rPCA1" r)) := by
  have hDC : ∀ cd ∈ descrCols extract s.spectra, cd.2.length = s.params.length := by
    rw [descrCols_eq]
    intro cd h
    simp only [List.mem_cons, List.not_mem_nil, or_false] at h
    rcases h with rfl|rfl|rfl|rfl|rfl|rfl|rfl|rfl|rfl|rfl|rfl|rfl|rfl|rfl <;> simp [hps]
  have hWF1 := addParams_rowlen (descrCols extract s.spectra) s hWF
  have hlen1 := addParams_params_length (descrCols extract s.spectra) s hDC
  have hdA : (List.zipWith PVal.sub
      (getCol "Pit_e" (addParams (descrCols extract s.spectra) s))
      (getCol "WL_e" (addParams (descrCols extract s.spectra) s))).length =
      (addParams (descrCols extract s.spectra) s).params.length := by
    simp [List.length_zipWith, getCol_length]
  have hWF2 := addParam_rowlen "Pit_e-WL_e"
    (List.zipWith PVal.sub
      (getCol "Pit_e" (addParams (descrCols extract s.spectra) s))
      (getCol "WL_e" (addParams (descrCols extract s.spectra) s)))
    (addParams (descrCols extract s.spectra) s) hWF1
  have hlen2 := addParam_params_length "Pit_e-WL_e"
    (List.zipWith PVal.sub
      (getCol "Pit_e" (addParams (descrCols extract s.spectra) s))
      (getCol "WL_e" (addParams (descrCols extract s.spectra) s)))
    (addParams (descrCols extract s.spectra) s) hdA
  have hdB : (List.zipWith PVal.div
      (List.zipWith PVal.sub
        (getCol "WL_i" (addParams (descrCols extract s.spectra) s))
        (getCol "Pit_i" (addParams (descrCols extract s.spectra) s)))
      (List.zipWith PVal.sub
        (getCol "Pit_e" (addParams (descrCols extract s.spectra) s))
        (getCol "WL_e" (addParams (descrCols extract s.spectra) s)))).length =
      (addParam "Pit_e-WL_e"
        (List.zipWith PVal.sub
          (getCol "Pit_e" (addParams (descrCols extract s.spectra) s))
          (getCol "WL_e" (addParams (descrCols extract s.spectra) s)))
        (addParams (descrCols extract s.spectra) s)).params.length := by
    rw [hlen2]
    simp [List.length_zipWith, getCol_length]
  have hcol : ∀ c : String, ¬ c = "WL-Pit_slope" → ¬ c = "Pit_e-WL_e" →
      getCol c (calc_descriptors extract good u pf s).1 =
      getCol c (addParams (descrCols extract s.spectra) s) := by
    intro c h1 h2
    rw [calc_descriptors_fst, getCol_addParam_ne c _ _ _ h1 hWF2 hdB,
      getCol_addParam_ne c _ _ _ h2 hWF1 hdA]
  have hDC' : ∀ cd ∈ ([("Pit_e", s.spectra.map (fun r => PVal.num (extract stableMin "Pit_e" r))),
       ("Pit_i", s.spectra.map (fun r => PVal.num (extract stableMin "Pit_i" r))),
       ("Pit_d2", s.spectra.map (fun r => PVal.num (extract stableMin "Pit_d2" r))),
       ("WL_e", s.spectra.map (fun r => PVal.num (extract stableMax "WL_e" r))),
       ("WL_i", s.spectra.map (fun r => PVal.num (extract stableMax "WL_i" r))),
       ("WL_d2", s.spectra.map (fun r => PVal.num (extract stableMax "WL_d2" r))),
       ("Edge_e", s.spectra.map (fun r => PVal.num (extract efermiConfig "Edge_e" r))),
       ("Edge_slope", s.spectra.map (fun r => PVal.num (extract efermiConfig "Edge_slope" r))),
       ("PCA1", s.spectra.map (fun r => PVal.num (extract pcaConfig "PCA1" r))),
       ("PCA2", s.spectra.map (fun r => PVal.num (extract pcaConfig "PCA2" r))),
       ("PCA3", s.spectra.map (fun r => PVal.num (extract pcaConfig "PCA3" r))),
       ("rPCA1", s.spectra.map (fun r => PVal.num (extract relPcaConfig "rPCA1" r))),
       ("rPCA2", s.spectra.map (fun r => PVal.num (extract relPcaConfig "rPCA2" r))),
       ("rPCA3", s.spectra.map (fun r => PVal.num (extract relPcaConfig "rPCA3" r)))] :
        List (String × List PVal)), cd.2.length = s.params.length := by
    rw [← descrCols_eq]
    exact hDC
  refine ⟨?_, calc_descriptors_snd extract good u pf s, rfl, rfl, rfl, rfl, ?_, ?_, ?_, ?_, ?_⟩
  · rw [calc_descriptors_fst, addParam_paramNames, addParam_paramNames,
      addParams_paramNames, descrCols_eq]
    simp
  · rw [hcol "Pit_e" (by simp) (by simp), descrCols_eq]
    exact getCol_addParams_first [] _ "Pit_e" _ s (by simp) (by simp [List.forall_mem_cons])
      (hnew "Pit_e" (by simp)) hWF (by simpa using hDC')
  · rw [hcol "WL_e" (by simp) (by simp), descrCols_eq]
    exact getCol_addParams_first
      [("Pit_e", s.spectra.map (fun r => PVal.num (extract stableMin "Pit_e" r))),
       ("Pit_i", s.spectra.map (fun r => PVal.num (extract stableMin "Pit_i" r))),
       ("Pit_d2", s.spectra.map (fun r => PVal.num (extract stableMin "Pit_d2" r)))]
      _ "WL_e" _ s (by simp [List.forall_mem_cons]) (by simp [List.forall_mem_cons])
      (hnew "WL_e" (by simp)) hWF (by simpa using hDC')
  · rw [hcol "Edge_e" (by simp) (by simp), descrCols_eq]
    exact getCol_addParams_first
      [("Pit_e", s.spectra.map (fun r => PVal.num (extract stableMin "Pit_e" r))),
       ("Pit_i", s.spectra.map (fun r => PVal.num (extract stableMin "Pit_i" r))),
       ("Pit_d2", s.spectra.map (fun r => PVal.num (extract stableMin "Pit_d2" r))),
       ("WL_e", s.spectra.map (fun r => PVal.num (extract stableMax "WL_e" r))),
       ("WL_i", s.spectra.map (fun r => PVal.num (extract stableMax "WL_i" r))),
       ("WL_d2", s.spectra.map (fun r => PVal.num (extract stableMax "WL_d2" r)))]
      _ "Edge_e" _ s (by simp [List.forall_mem_cons]) (by simp [List.forall_mem_cons])
      (hnew "Edge_e" (by simp)) hWF (by simpa using hDC')
  · rw [hcol "PCA1" (by simp) (by simp), descrCols_eq]
    exact getCol_addParams_first
      [("Pit_e", s.spectra.map (fun r => PVal.num (extract stableMin "Pit_e" r))),
       ("Pit_i", s.spectra.map (fun r => PVal.num (extract stableMin "Pit_i" r))),
       ("Pit_d2", s.spectra.map (fun r => PVal.num (extract stableMin "Pit_d2" r))),
       ("WL_e", s.spectra.map (fun r => PVal.num (extract stableMax "WL_e" r))),
       ("WL_i", s.spectra.map (fun r => PVal.num (extract stableMax "WL_i" r))),
       ("WL_d2", s.spectra.map (fun r => PVal.num (extract stableMax "WL_d2" r))),
       ("Edge_e", s.spectra.map (fun r => PVal.num (extract efermiConfig "Edge_e" r))),
       ("Edge_slope", s.spectra.map (fun r => PVal.num (extract efermiConfig "Edge_slope" r)))]
      _ "PCA1" _ s (by simp [List.forall_mem_cons]) (by simp [List.forall_mem_cons])
      (hnew "PCA1" (by simp)) hWF (by simpa using hDC')
  · rw [hcol "rPCA1" (by simp) (by simp), descrCols_eq]
    exact getCol_addParams_first
      [("Pit_e", s.spectra.map (fun r => PVal.num (extract stableMin "Pit_e" r))),
       ("Pit_i", s.spectra.map (fun r => PVal.num (extract stableMin "Pit_i" r))),
       ("Pit_d2", s.spectra.map (fun r => PVal.num (extract stableMin "Pit_d2" r))),
       ("WL_e", s.spectra.map (fun r => PVal.num (extract stableMax "WL_e" r))),
       ("WL_i", s.spectra.map (fun r => PVal.num (extract stableMax "WL_i" r))),
       ("WL_d2", s.spectra.map (fun r => PVal.num (extract stableMax "WL_d2" r))),
       ("Edge_e", s.spectra.map (fun r => PVal.num (extract efermiConfig "Edge_e" r))),
       ("Edge_slope", s.spectra.map (fun r => PVal.num (extract efermiConfig "Edge_slope" r))),
       ("PCA1", s.spectra.map (fun r => PVal.num (extract pcaConfig "PCA1" r))),
       ("PCA2", s.spectra.map (fun r => PVal.num (extract pcaConfig "PCA2" r))),
       ("PCA3", s.spectra.map (fun r => PVal.num (extract pcaConfig "PCA3" r)))]
      _ "rPCA1" _ s (by simp [List.forall_mem_cons]) (by simp [List.forall_mem_cons])
      (hnew "rPCA1" (by simp)) hWF (by simpa using hDC')

end Xanes

namespace Xanes

/-- Witness for C6: on the one-spectrum sample with no prior columns,
`calc_descriptors` produces exactly the descriptor columns. -/
theorem calc_descriptors_adds_descriptors_witness :
    (calc_descriptors wExtract wGood false "generated/pca_data.pkl" wSampleOne).1.paramNames =
      ["Pit_e", "Pit_i", "Pit_d2", "WL_e", "WL_i", "WL_d2", "Edge_e", "Edge_slope",
       "PCA1", "PCA2", "PCA3", "rPCA1", "rPCA2", "rPCA3", "Pit_e-WL_e", "WL-Pit_slope"] := by
  have h := calc_descriptors_adds_descriptors wExtract wGood false "generated/pca_data.pkl"
    wSampleOne (by decide) (by decide) (by decide)
  simpa [wSampleOne] using h.1

/-- C8: `calc_descriptors` adds the parameter `Pit_e-WL_e` equal to
`Pit_e − WL_e` on every row, and the parameter `WL-Pit_slope` equal to
`(WL_i − Pit_i) / (Pit_e − WL_e)` with the division unguarded: on a row
with `Pit_e = WL_e` the value is non-finite (`undef`), and under the
precondition `Pit_e ≠ WL_e` on every row all slope values are finite
and equal to the quotient. -/
theorem derived_params_division
    (extract : DescriptorConfig → String → List ℚ → ℚ) (good : Sample → List ℕ)
    (u : Bool) (pf : String) (s : Sample)
    (hWF : ∀ row ∈ s.params, row.length = s.paramNames.length)
    (hps : s.params.length = s.spectra.length)
    (hnew : ∀ c ∈ (["Pit_e", "Pit_i", "Pit_d2", "WL_e", "WL_i", "WL_d2", "Edge_e",
      "Edge_slope", "PCA1", "PCA2", "PCA3", "rPCA1", "rPCA2", "rPCA3", "Pit_e-WL_e",
      "WL-Pit_slope"] : List String), ¬ c ∈ s.paramNames) :
    getCol "Pit_e-WL_e" (calc_descriptors extract good u pf s).1 =
      s.spectra.map (fun r =>
        PVal.num (extract stableMin "Pit_e" r - extract stableMax "WL_e" r)) ∧
    getCol "WL-Pit_slope" (calc_descriptors extract good u pf s).1 =
      s.spectra.map (fun r =>
        if extract stableMin "Pit_e" r - extract stableMax "WL_e" r = 0 then PVal.undef
        else PVal.num ((extract stableMax "WL_i" r - extract stableMin "Pit_i" r) /
          (extract stableMin "Pit_e" r - extract stableMax "WL_e" r))) ∧
    ((∀ r ∈ s.spectra, extract stableMin "Pit_e" r ≠ extract stableMax "WL_e" r) →
      getCol "WL-Pit_slope" (calc_descriptors extract good u pf s).1 =
        s.spectra.map (fun r =>
          PVal.num ((extract stableMax "WL_i" r - extract stableMin "Pit_i" r) /
            (extract stableMin "Pit_e" r - extract stableMax "WL_e" r)))) := by
  have hDC : ∀ cd ∈ descrCols extract s.spectra, cd.2.length = s.params.length := by
    rw [descrCols_eq]
    intro cd h
    simp only [List.mem_cons, List.not_mem_nil, or_false] at h
    rcases h with rfl|rfl|rfl|rfl|rfl|rfl|rfl|rfl|rfl|rfl|rfl|rfl|rfl|rfl <;> simp [hps]
  have hDC' : ∀ cd ∈ ([("Pit_e", s.spectra.map (fun r => PVal.num (extract stableMin "Pit_e" r))),
       ("Pit_i", s.spectra.map (fun r => PVal.num (extract stableMin "Pit_i" r))),
       ("Pit_d2", s.spectra.map (fun r => PVal.num (extract stableMin "Pit_d2" r))),
       ("WL_e", s.spectra.map (fun r => PVal.num (extract stableMax "WL_e" r))),
       ("WL_i", s.spectra.map (fun r => PVal.num (extract stableMax "WL_i" r))),
       ("WL_d2", s.spectra.map (fun r => PVal.num (extract stableMax "WL_d2" r))),
       ("Edge_e", s.spectra.map (fun r => PVal.num (extract efermiConfig "Edge_e" r))),
       ("Edge_slope", s.spectra.map (fun r => PVal.num (extract efermiConfig "Edge_slope" r))),
       ("PCA1", s.spectra.map (fun r => PVal.num (extract pcaConfig "PCA1" r))),
       ("PCA2", s.spectra.map (fun r => PVal.num (extract pcaConfig "PCA2" r))),
       ("PCA3", s.spectra.map (fun r => PVal.num (extract pcaConfig "PCA3" r))),
       ("rPCA1", s.spectra.map (fun r => PVal.num (extract relPcaConfig "rPCA1" r))),
       ("rPCA2", s.spectra.map (fun r => PVal.num (extract relPcaConfig "rPCA2" r))),
       ("rPCA3", s.spectra.map (fun r => PVal.num (extract relPcaConfig "rPCA3" r)))] :
        List (String × List PVal)), cd.2.length = s.params.length := by
    rw [← descrCols_eq]
    exact hDC
  have hWF1 := addParams_rowlen (descrCols extract s.spectra) s hWF
  have hdA : (List.zipWith PVal.sub
      (getCol "Pit_e" (addParams (descrCols extract s.spectra) s))
      (getCol "WL_e" (addParams (descrCols extract s.spectra) s))).length =
      (addParams (descrCols extract s.spectra) s).params.length := by
    simp [List.length_zipWith, getCol_length]
  have hWF2 := addParam_rowlen "Pit_e-WL_e"
    (List.zipWith PVal.sub
      (getCol "Pit_e" (addParams (descrCols extract s.spectra) s))
      (getCol "WL_e" (addParams (descrCols extract s.spectra) s)))
    (addParams (descrCols extract s.spectra) s) hWF1
  have hdB : (List.zipWith PVal.div
      (List.zipWith PVal.sub
        (getCol "WL_i" (addParams (descrCols extract s.spectra) s))
        (getCol "Pit_i" (addParams (descrCols extract s.spectra) s)))
      (List.zipWith PVal.sub
        (getCol "Pit_e" (addParams (descrCols extract s.spectra) s))
        (getCol "WL_e" (addParams (descrCols extract s.spectra) s)))).length =
      (addParam "Pit_e-WL_e"
        (List.zipWith PVal.sub
          (getCol "Pit_e" (addParams (descrCols extract s.spectra) s))
          (getCol "WL_e" (addParams (descrCols extract s.spectra) s)))
        (addParams (descrCols extract s.spectra) s)).params.length := by
    rw [addParam_params_length "Pit_e-WL_e"
      (List.zipWith PVal.sub
        (getCol "Pit_e" (addParams (descrCols extract s.spectra) s))
        (getCol "WL_e" (addParams (descrCols extract s.spectra) s)))
      (addParams (descrCols extract s.spectra) s) hdA]
    simp [List.length_zipWith, getCol_length]
  have hnames1 : (addParams (descrCols extract s.spectra) s).paramNames =
      s.paramNames ++ ["Pit_e", "Pit_i", "Pit_d2", "WL_e", "WL_i", "WL_d2", "Edge_e",
        "Edge_slope", "PCA1", "PCA2", "PCA3", "rPCA1", "rPCA2", "rPCA3"] := by
    rw [addParams_paramNames, descrCols_eq]
    simp
  have hPe : getCol "Pit_e" (addParams (descrCols extract s.spectra) s) =
      s.spectra.map (fun r => PVal.num (extract stableMin "Pit_e" r)) := by
    rw [descrCols_eq]
    exact getCol_addParams_first [] _ "Pit_e" _ s (by simp) (by simp [List.forall_mem_cons])
      (hnew "Pit_e" (by simp)) hWF (by simpa using hDC')
  have hPi : getCol "Pit_i" (addParams (descrCols extract s.spectra) s) =
      s.spectra.map (fun r => PVal.num (extract stableMin "Pit_i" r)) := by
    rw [descrCols_eq]
    exact getCol_addParams_first
      [("Pit_e", s.spectra.map (fun r => PVal.num (extract stableMin "Pit_e" r)))]
      _ "Pit_i" _ s (by simp [List.forall_mem_cons]) (by simp [List.forall_mem_cons])
      (hnew "Pit_i" (by simp)) hWF (by simpa using hDC')
  have hWe : getCol "WL_e" (addParams (descrCols extract s.spectra) s) =
      s.spectra.map (fun r => PVal.num (extract stableMax "WL_e" r)) := by
    rw [descrCols_eq]
    exact getCol_addParams_first
      [("Pit_e", s.spectra.map (fun r => PVal.num (extract stableMin "Pit_e" r))),
       ("Pit_i", s.spectra.map (fun r => PVal.num (extract stableMin "Pit_i" r))),
       ("Pit_d2", s.spectra.map (fun r => PVal.num (extract stableMin "Pit_d2" r)))]
      _ "WL_e" _ s (by simp [List.forall_mem_cons]) (by simp [List.forall_mem_cons])
      (hnew "WL_e" (by simp)) hWF (by simpa using hDC')
  have hWi : getCol "WL_i" (addParams (descrCols extract s.spectra) s) =
      s.spectra.map (fun r => PVal.num (extract stableMax "WL_i" r)) := by
    rw [descrCols_eq]
    exact getCol_addParams_first
      [("Pit_e", s.spectra.map (fun r => PVal.num (extract stableMin "Pit_e" r))),
       ("Pit_i", s.spectra.map (fun r => PVal.num (extract stableMin "Pit_i" r))),
       ("Pit_d2", s.spectra.map (fun r => PVal.num (extract stableMin "Pit_d2" r))),
       ("WL_e", s.spectra.map (fun r => PVal.num (extract stableMax "WL_e" r)))]
      _ "WL_i" _ s (by simp [List.forall_mem_cons]) (by simp [List.forall_mem_cons])
      (hnew "WL_i" (by simp)) hWF (by simpa using hDC')
  have hA : List.zipWith PVal.sub
      (getCol "Pit_e" (addParams (descrCols extract s.spectra) s))
      (getCol "WL_e" (addParams (descrCols extract s.spectra) s)) =
      s.spectra.map (fun r =>
        PVal.num (extract stableMin "Pit_e" r - extract stableMax "WL_e" r)) := by
    rw [hPe, hWe, List.zipWith_map, List.zipWith_same]
    rfl
  have hPeWLe : getCol "Pit_e-WL_e" (calc_descriptors extract good u pf s).1 =
      List.zipWith PVal.sub
        (getCol "Pit_e" (addParams (descrCols extract s.spectra) s))
        (getCol "WL_e" (addParams (descrCols extract s.spectra) s)) := by
    rw [calc_descriptors_fst, getCol_addParam_ne _ _ _ _ (by simp) hWF2 hdB]
    refine getCol_addParam_self _ _ _ ?_ hWF1 hdA
    rw [hnames1]
    intro hmem
    rcases List.mem_append.mp hmem with h | h
    · exact hnew "Pit_e-WL_e" (by simp) h
    · simp at h
  have hSlope : getCol "WL-Pit_slope" (calc_descriptors extract good u pf s).1 =
      List.zipWith PVal.div
        (List.zipWith PVal.sub
          (getCol "WL_i" (addParams (descrCols extract s.spectra) s))
          (getCol "Pit_i" (addParams (descrCols extract s.spectra) s)))
        (List.zipWith PVal.sub
          (getCol "Pit_e" (addParams (descrCols extract s.spectra) s))
          (getCol "WL_e" (addParams (descrCols extract s.spectra) s))) := by
    rw [calc_descriptors_fst]
    refine getCol_addParam_self _ _ _ ?_ hWF2 hdB
    rw [addParam_paramNames, hnames1]
    intro hmem
    rcases List.mem_append.mp hmem with h | h
    · rcases List.mem_append.mp h with h2 | h2
      · exact hnew "WL-Pit_slope" (by simp) h2
      · simp at h2
    · simp at h
  refine ⟨?_, ?_, ?_⟩
  · rw [hPeWLe, hA]
  · rw [hSlope, hWi, hPi, hPe, hWe, List.zipWith_map, List.zipWith_same,
      List.zipWith_map, List.zipWith_same, List.zipWith_map, List.zipWith_same]
    refine List.map_congr_left (fun r hr => ?_)
    simp [PVal.sub, PVal.div]
  · intro hne
    rw [hSlope, hWi, hPi, hPe, hWe, List.zipWith_map, List.zipWith_same,
      List.zipWith_map, List.zipWith_same, List.zipWith_map, List.zipWith_same]
    refine List.map_congr_left (fun r hr => ?_)
    simp only [PVal.sub, PVal.div]
    rw [if_neg (sub_ne_zero.mpr (hne r hr))]

end Xanes

namespace Xanes

/-- Witness for C8: with `Pit_e = 2 ≠ 1 = WL_e` on the only spectrum,
the slope is finite and equals `(5 − 3) / (2 − 1) = 2`. -/
theorem derived_params_division_witness :
    getCol "WL-Pit_slope"
      (calc_descriptors wExtract wGood false "generated/pca_data.pkl" wSampleOne).1 =
      [PVal.num 2] := by
  have h := (derived_params_division wExtract wGood false "generated/pca_data.pkl"
    wSampleOne (by decide) (by decide) (by decide)).2.2 (by decide)
  rw [h]
  norm_num [wSampleOne, wExtract]
  rw [if_neg (show ¬ ("WL_i" : String) = "Pit_e" by decide),
    if_neg (show ¬ ("WL_i" : String) = "WL_e" by decide),
    if_neg (show ¬ ("Pit_i" : String) = "Pit_e" by decide),
    if_neg (show ¬ ("Pit_i" : String) = "WL_e" by decide),
    if_neg (show ¬ ("Pit_i" : String) = "WL_i" by decide),
    if_neg (show ¬ ("WL_e" : String) = "Pit_e" by decide)]
  norm_num

end Xanes

namespace Xanes

theorem rowAfterDel (N : List String) (row : List PVal) (hlen : row.length = N.length)
    (hF : ¬ "FeODist" ∈ N) (hS : ¬ "stdDist" ∈ N) (hC : ¬ "CN" ∈ N) (hV : ¬ "valence" ∈ N)
    (a b c d : PVal) :
    ((((((N ++ ["FeODist"]) ++ ["stdDist"]) ++ ["CN"]) ++ ["valence"]).zip
        ((((row ++ [a]) ++ [b]) ++ [c]) ++ [d])).filter
          (fun p => !(N.contains p.1))).map (fun p => p.2) = [a, b, c, d] := by
  have cF : N.contains "FeODist" = false := by simpa using hF
  have cS : N.contains "stdDist" = false := by simpa using hS
  have cC : N.contains "CN" = false := by simpa using hC
  have cV : N.contains "valence" = false := by simpa using hV
  have hzip : ((((((N ++ ["FeODist"]) ++ ["stdDist"]) ++ ["CN"]) ++ ["valence"]).zip
      ((((row ++ [a]) ++ [b]) ++ [c]) ++ [d]))) =
      N.zip row ++ [("FeODist", a), ("stdDist", b), ("CN", c), ("valence", d)] := by
    simp only [List.append_assoc]
    rw [List.zip_append hlen.symm]
    rfl
  rw [hzip, List.filter_append]
  have h1 : (N.zip row).filter (fun p => !(N.contains p.1)) = [] := by
    rw [List.filter_eq_nil_iff]
    intro p hp
    have hmem := (List.of_mem_zip hp).1
    simp only [Bool.not_eq_true', Bool.not_eq_false]
    simpa using hmem
  rw [h1]
  simp [List.filter, hF, hS, hC, hV]

theorem subPipeline_shape (smooth : List (List ℚ) → List (List ℚ)) (CN valence : ℕ)
    (dv : List (ℚ × ℚ)) (D : Sample) (out : Sample)
    (hWF : ∀ row ∈ D.params, row.length = D.paramNames.length)
    (hdv : dv.length = D.params.length)
    (hdisj : ∀ c ∈ (["FeODist", "stdDist", "CN", "valence"] : List String),
      ¬ c ∈ D.paramNames)
    (h : (if (smooth D.spectra).all (fun row => row.all (fun v => decide (v < 15))) then
        some (addParam "name"
          ((List.range D.params.length).map (fun i => PVal.str (mkName CN valence i)))
          { delParam D.paramNames
              (addParam "valence" (List.replicate D.params.length (PVal.num valence))
                (addParam "CN" (List.replicate D.params.length (PVal.num CN))
                  (addParam "stdDist" (dv.map (fun p => PVal.num p.2))
                    (addParam "FeODist" (dv.map (fun p => PVal.num p.1)) D)))) with
            spectra := smooth D.spectra })
      else none) = some out) :
    out.paramNames = ["FeODist", "stdDist", "CN", "valence", "name"] ∧
    out.params = expectedBlock dv CN valence ∧
    out.spectra = smooth D.spectra ∧
    out.energy = D.energy := by
  have cF : D.paramNames.contains "FeODist" = false := by simpa using hdisj "FeODist" (by simp)
  have cS : D.paramNames.contains "stdDist" = false := by simpa using hdisj "stdDist" (by simp)
  have cC : D.paramNames.contains "CN" = false := by simpa using hdisj "CN" (by simp)
  have cV : D.paramNames.contains "valence" = false := by simpa using hdisj "valence" (by simp)
  split at h
  case isFalse => exact absurd h (by simp)
  case isTrue hcond =>
  have hout := (Option.some.injEq _ _).mp h
  subst hout
  have hdel_names : (delParam D.paramNames
      (addParam "valence" (List.replicate D.params.length (PVal.num valence))
        (addParam "CN" (List.replicate D.params.length (PVal.num CN))
          (addParam "stdDist" (dv.map (fun p => PVal.num p.2))
            (addParam "FeODist" (dv.map (fun p => PVal.num p.1)) D))))).paramNames =
      ["FeODist", "stdDist", "CN", "valence"] := by
    show ((((((D.paramNames ++ ["FeODist"]) ++ ["stdDist"]) ++ ["CN"]) ++ ["valence"])).filter
      (fun nm => !(D.paramNames.contains nm))) = _
    simp only [List.append_assoc]
    rw [List.filter_append]
    have h1 : D.paramNames.filter (fun nm => !(D.paramNames.contains nm)) = [] := by
      rw [List.filter_eq_nil_iff]
      intro nm hnm
      simp only [Bool.not_eq_true', Bool.not_eq_false]
      simpa using hnm
    rw [h1]
    simp [List.filter, hdisj "FeODist" (by simp), hdisj "stdDist" (by simp),
      hdisj "CN" (by simp), hdisj "valence" (by simp)]
  refine ⟨?_, ?_, rfl, rfl⟩
  · show (delParam D.paramNames _).paramNames ++ ["name"] = _
    rw [hdel_names]
    rfl
  · apply List.ext_getElem
    · simp [addParam, delParam, List.length_zipWith, hdv, expectedBlock]
    · intro i h1 h2
      have hi : i < D.params.length := by
        simp only [expectedBlock, List.length_map, List.enum_length, hdv] at h2
        exact h2
      simp only [addParam, delParam, expectedBlock, List.getElem_zipWith, List.getElem_map,
        List.getElem_replicate, List.getElem_range, List.getElem_enum]
      rw [rowAfterDel D.paramNames D.params[i]
        (hWF _ (List.getElem_mem hi))
        (hdisj "FeODist" (by simp)) (hdisj "stdDist" (by simp))
        (hdisj "CN" (by simp)) (hdisj "valence" (by simp))]
      rfl

end Xanes

namespace Xanes

theorem processSubsample_shape (smooth : List (List ℚ) → List (List ℚ)) (flag : Bool)
    (CN valence : ℕ) (inp : SubInput) (out : Sample)
    (hWF : ∀ row ∈ (subsampleData flag inp).params,
      row.length = (subsampleData flag inp).paramNames.length)
    (hdv : inp.distVals.length = (subsampleData flag inp).params.length)
    (hdisj : ∀ c ∈ (["FeODist", "stdDist", "CN", "valence"] : List String),
      ¬ c ∈ (subsampleData flag inp).paramNames)
    (h : processSubsample smooth flag CN valence inp = some out) :
    out.paramNames = ["FeODist", "stdDist", "CN", "valence", "name"] ∧
    out.params = expectedBlock inp.distVals CN valence ∧
    out.spectra = smooth (subsampleData flag inp).spectra ∧
    out.energy = (subsampleData flag inp).energy := by
  rw [processSubsample_eq] at h
  exact subPipeline_shape smooth CN valence inp.distVals (subsampleData flag inp) out
    hWF hdv hdisj h

theorem processSubsample_some_spectra (smooth : List (List ℚ) → List (List ℚ)) (flag : Bool)
    (CN valence : ℕ) (inp : SubInput) (out : Sample)
    (h : processSubsample smooth flag CN valence inp = some out) :
    out.spectra = smooth (subsampleData flag inp).spectra ∧
    out.energy = (subsampleData flag inp).energy := by
  rw [processSubsample_eq] at h
  split at h
  case isFalse => exact absurd h (by simp)
  case isTrue hcond =>
    have hout := (Option.some.injEq _ _).mp h
    subst hout
    exact ⟨rfl, rfl⟩

theorem loadSpectra_eq (smooth : ℕ → ℕ → List (List ℚ) → List (List ℚ))
    (inputs : ℕ → ℕ → SubInput) (expFiles : List (String × List ℚ))
    (tbl : List TrueRow) (lo hi : ℚ) (flag : Bool) :
    loadSpectra smooth inputs expFiles tbl lo hi flag =
      (cnValencePairs.mapM (fun cv =>
        processSubsample (smooth cv.1 cv.2) flag cv.1 cv.2 (inputs cv.1 cv.2))).bind
        (fun subs =>
          match subs with
          | [] => none
          | h :: t =>
            (addExpRows tbl expFiles (t.foldl unionWith h)).bind
              (fun all => some (limit lo hi all))) := rfl

theorem mapM_eq_some_forall₂ {α β : Type} (f : α → Option β) (l : List α) (res : List β)
    (h : l.mapM f = some res) : List.Forall₂ (fun a b => f a = some b) l res := by
  induction l generalizing res with
  | nil =>
    rw [List.mapM_nil] at h
    cases h
    exact List.Forall₂.nil
  | cons a t ih =>
    rw [List.mapM_cons] at h
    cases hfa : f a with
    | none => rw [hfa] at h; simp at h
    | some b =>
      rw [hfa] at h
      cases hmt : t.mapM f with
      | none => rw [hmt] at h; simp at h
      | some bs =>
        rw [hmt] at h
        simp at h
        subst h
        exact List.Forall₂.cons hfa (ih bs hmt)

theorem foldl_unionWith (l : List Sample) (a : Sample) :
    (l.foldl unionWith a).paramNames = a.paramNames ∧
    (l.foldl unionWith a).params = a.params ++ (l.map Sample.params).flatten ∧
    (l.foldl unionWith a).spectra = a.spectra ++ (l.map Sample.spectra).flatten ∧
    (l.foldl unionWith a).energy = a.energy := by
  induction l generalizing a with
  | nil => simp
  | cons s t ih =>
    simp only [List.foldl_cons, List.map_cons, List.flatten_cons]
    obtain ⟨h1, h2, h3, h4⟩ := ih (unionWith a s)
    refine ⟨h1, ?_, ?_, h4⟩
    · rw [h2]
      simp [unionWith, List.append_assoc]
    · rw [h3]
      simp [unionWith, List.append_assoc]

theorem addExpRows_shape (tbl : List TrueRow) (files : List (String × List ℚ)) :
    ∀ (s out : Sample), addExpRows tbl files s = some out →
    out.paramNames = s.paramNames ∧ out.energy = s.energy ∧
    (∃ extra, extra.length = files.length ∧ out.params = s.params ++ extra) ∧
    out.spectra = s.spectra ++ files.map Prod.snd := by
  induction files with
  | nil =>
    intro s out h
    simp only [addExpRows, List.foldlM_nil] at h
    cases h
    simp
  | cons f fs ih =>
    intro s out h
    rw [addExpRows, List.foldlM_cons] at h
    cases hex : expTrueValues tbl f.1 with
    | none => rw [hex] at h; simp at h
    | some d =>
      rw [hex] at h
      simp only [Option.map_some, Option.map_some', Option.some_bind] at h
      obtain ⟨h1, h2, ⟨extra, hlen, h3⟩, h4⟩ := ih _ _ h
      refine ⟨h1, h2,
        ⟨(s.paramNames.map (fun c =>
            if c = "name" then PVal.str d.1
            else
              match d.2.find? (fun cv => cv.1 = c) with
              | some cv => PVal.num cv.2
              | none => PVal.undef)) :: extra, by simp [hlen], ?_⟩, ?_⟩
      · rw [h3]
        simp [addRow, List.append_assoc]
      · rw [h4]
        simp [addRow, List.append_assoc]

end Xanes

namespace Xanes

theorem forall₂_map_eq {α β γ : Type _} {l : List α} {m : List β} {g : β → γ} {k : α → γ}
    (h : List.Forall₂ (fun a b => g b = k a) l m) : m.map g = l.map k := by
  induction h with
  | nil => rfl
  | cons h1 _ ih => simp [h1, ih]

/-- C9: after `loadSpectra`, every theoretical row of the combined
sample has exactly the parameter columns `FeODist`, `stdDist`, `CN`,
`valence`, `name` (the original per-geometry parameters all deleted);
the theoretical rows are the concatenation, over `CN = 2..6` and
`valence ∈ {2, 3}`, of blocks whose row `i` holds the constants `CN`
and `valence` and the name `cnCNvVAL_i`, followed only by the
experimental rows. -/
theorem loadSpectra_theoretical_rows (smooth : ℕ → ℕ → List (List ℚ) → List (List ℚ))
    (inputs : ℕ → ℕ → SubInput) (expFiles : List (String × List ℚ))
    (tbl : List TrueRow) (lo hi : ℚ) (flag : Bool)
    (hWF : ∀ CN valence : ℕ, ∀ row ∈ (subsampleData flag (inputs CN valence)).params,
      row.length = (subsampleData flag (inputs CN valence)).paramNames.length)
    (hdv : ∀ CN valence : ℕ, (inputs CN valence).distVals.length =
      (subsampleData flag (inputs CN valence)).params.length)
    (hdisj : ∀ CN valence : ℕ, ∀ c ∈ (["FeODist", "stdDist", "CN", "valence"] : List String),
      ¬ c ∈ (subsampleData flag (inputs CN valence)).paramNames)
    (out : Sample) (h : loadSpectra smooth inputs expFiles tbl lo hi flag = some out) :
    out.paramNames = ["FeODist", "stdDist", "CN", "valence", "name"] ∧
    ∃ expRows, expRows.length = expFiles.length ∧
      out.params = (cnValencePairs.map (fun cv =>
        expectedBlock (inputs cv.1 cv.2).distVals cv.1 cv.2)).flatten ++ expRows := by
  rw [loadSpectra_eq] at h
  cases hm : cnValencePairs.mapM (fun cv =>
      processSubsample (smooth cv.1 cv.2) flag cv.1 cv.2 (inputs cv.1 cv.2)) with
  | none => rw [hm] at h; simp at h
  | some subs =>
    rw [hm] at h
    simp only [Option.some_bind] at h
    have hf2 := mapM_eq_some_forall₂ _ _ _ hm
    have hshape : List.Forall₂ (fun (cv : ℕ × ℕ) (s' : Sample) =>
        s'.paramNames = ["FeODist", "stdDist", "CN", "valence", "name"] ∧
        s'.params = expectedBlock (inputs cv.1 cv.2).distVals cv.1 cv.2)
        cnValencePairs subs := by
      refine List.Forall₂.imp ?_ hf2
      intro cv s' hcv
      have hs := processSubsample_shape (smooth cv.1 cv.2) flag cv.1 cv.2 (inputs cv.1 cv.2)
        s' (hWF cv.1 cv.2) (hdv cv.1 cv.2) (hdisj cv.1 cv.2) hcv
      exact ⟨hs.1, hs.2.1⟩
    cases subs with
    | nil => simp at h
    | cons s0 rest =>
      have h2 : (addExpRows tbl expFiles (rest.foldl unionWith s0)).bind
          (fun all => some (limit lo hi all)) = some out := h
      cases hex : addExpRows tbl expFiles (rest.foldl unionWith s0) with
      | none => rw [hex] at h2; simp at h2
      | some all =>
        rw [hex] at h2
        simp only [Option.some_bind, Option.some.injEq] at h2
        subst h2
        obtain ⟨hA1, hA2, ⟨extra, hexlen, hA3⟩, hA4⟩ :=
          addExpRows_shape tbl expFiles _ all hex
        have hfold := foldl_unionWith rest s0
        cases hshape with
        | cons hhead hrest =>
          constructor
          · show all.paramNames = _
            rw [hA1, hfold.1, hhead.1]
          · refine ⟨extra, hexlen, ?_⟩
            show all.params = _
            rw [hA3, hfold.2.1, hhead.2]
            have hmap : rest.map Sample.params =
                ([(2, 3), (3, 2), (3, 3), (4, 2), (4, 3), (5, 2), (5, 3), (6, 2), (6, 3)] :
                  List (ℕ × ℕ)).map (fun cv =>
                    expectedBlock (inputs cv.1 cv.2).distVals cv.1 cv.2) :=
              forall₂_map_eq (List.Forall₂.imp (fun cv s' hs => hs.2) hrest)
            rw [hmap]
            simp [cnValencePairs, List.append_assoc]

end Xanes

namespace Xanes

/-- Witness for C9: on trivial inputs every stage succeeds, and the
combined sample carries exactly the five parameter columns. -/
theorem loadSpectra_theoretical_rows_witness :
    (loadSpectra (fun _ _ x => x) (fun _ _ => wSubInput) [] [] 7100 7200 false).isSome
      = true ∧
    ∀ out, loadSpectra (fun _ _ x => x) (fun _ _ => wSubInput) [] [] 7100 7200 false
        = some out →
      out.paramNames = ["FeODist", "stdDist", "CN", "valence", "name"] ∧
      ∃ expRows, expRows.length = ([] : List (String × List ℚ)).length ∧
        out.params = (cnValencePairs.map (fun cv =>
          expectedBlock wSubInput.distVals cv.1 cv.2)).flatten ++ expRows :=
  ⟨by decide, fun out h =>
    loadSpectra_theoretical_rows (fun _ _ x => x) (fun _ _ => wSubInput) [] [] 7100 7200
      false
      (fun _ _ => show ∀ row ∈ (subsampleData false wSubInput).params,
        row.length = (subsampleData false wSubInput).paramNames.length from by decide)
      (fun _ _ => show wSubInput.distVals.length =
        (subsampleData false wSubInput).params.length from by decide)
      (fun _ _ => show ∀ c ∈ (["FeODist", "stdDist", "CN", "valence"] : List String),
        ¬ c ∈ (subsampleData false wSubInput).paramNames from by decide) out h⟩

end Xanes

namespace Xanes

/-- C5: in the notebook's pipeline the descriptor stage
(`calc_descriptors`) receives exactly the output of `loadSpectra`,
whose theoretical spectra are first replaced by their smoothed version
and then restricted to the energy range `[7100, 7200]`; every energy
point of the sample the descriptor stage sees lies in `[7100, 7200]`,
and every spectrum it sees is the restriction of a smoothed spectrum —
never an unsmoothed or unrestricted one. -/
theorem smoothing_before_descriptors (smooth : ℕ → ℕ → List (List ℚ) → List (List ℚ))
    (inputs : ℕ → ℕ → SubInput) (expFiles : List (String × List ℚ)) (tbl : List TrueRow)
    (flag : Bool) (extract : DescriptorConfig → String → List ℚ → ℚ)
    (good : Sample → List ℕ) (u : Bool) (pf : String) (r : Sample × List ℕ)
    (h : Option.map (calc_descriptors extract good u pf)
      (loadSpectra smooth inputs expFiles tbl 7100 7200 flag) = some r) :
    ∃ out, loadSpectra smooth inputs expFiles tbl 7100 7200 flag = some out ∧
      r = calc_descriptors extract good u pf out ∧
      (∀ e ∈ out.energy, 7100 ≤ e ∧ e ≤ 7200) ∧
      out.spectra = ((cnValencePairs.map (fun cv =>
          smooth cv.1 cv.2 (subsampleData flag (inputs cv.1 cv.2)).spectra)).flatten
          ++ expFiles.map Prod.snd).map (fun row =>
            (((subsampleData flag (inputs 2 2)).energy.zip row).filter
              (fun p => decide (7100 ≤ p.1) && decide (p.1 ≤ 7200))).map (fun p => p.2)) := by
  cases hls : loadSpectra smooth inputs expFiles tbl 7100 7200 flag with
  | none => rw [hls] at h; simp at h
  | some out0 =>
    rw [hls] at h
    simp only [Option.map_some, Option.map_some', Option.some.injEq] at h
    refine ⟨out0, rfl, h.symm, ?_, ?_⟩
    all_goals (
      rw [loadSpectra_eq] at hls
      cases hm : cnValencePairs.mapM (fun cv =>
          processSubsample (smooth cv.1 cv.2) flag cv.1 cv.2 (inputs cv.1 cv.2)) with
      | none => rw [hm] at hls; simp at hls
      | some subs =>
        rw [hm] at hls
        simp only [Option.some_bind] at hls
        have hf2 := mapM_eq_some_forall₂ _ _ _ hm
        have hshape : List.Forall₂ (fun (cv : ℕ × ℕ) (s' : Sample) =>
            s'.spectra = smooth cv.1 cv.2 (subsampleData flag (inputs cv.1 cv.2)).spectra ∧
            s'.energy = (subsampleData flag (inputs cv.1 cv.2)).energy)
            cnValencePairs subs := by
          refine List.Forall₂.imp ?_ hf2
          intro cv s' hcv
          exact processSubsample_some_spectra (smooth cv.1 cv.2) flag cv.1 cv.2
            (inputs cv.1 cv.2) s' hcv
        cases subs with
        | nil => simp at hls
        | cons s0 rest =>
          have h2 : (addExpRows tbl expFiles (rest.foldl unionWith s0)).bind
              (fun all => some (limit 7100 7200 all)) = some out0 := hls
          cases hex : addExpRows tbl expFiles (rest.foldl unionWith s0) with
          | none => rw [hex] at h2; simp at h2
          | some all =>
            rw [hex] at h2
            simp only [Option.some_bind, Option.some.injEq] at h2
            subst h2
            obtain ⟨hA1, hA2, ⟨extra, hexlen, hA3⟩, hA4⟩ :=
              addExpRows_shape tbl expFiles _ all hex
            have hfold := foldl_unionWith rest s0
            cases hshape with
            | cons hhead hrest =>
              first
              | (intro e he
                 have he2 : e ∈ all.energy.filter
                     (fun e => decide (7100 ≤ e) && decide (e ≤ 7200)) := he
                 have := (List.mem_filter.mp he2).2
                 simp only [Bool.and_eq_true, decide_eq_true_eq] at this
                 exact this)
              | (show all.spectra.map (fun row =>
                    ((all.energy.zip row).filter
                      (fun p => decide (7100 ≤ p.1) && decide (p.1 ≤ 7200))).map
                        (fun p => p.2)) = _
                 have hmap : rest.map Sample.spectra =
                     ([(2, 3), (3, 2), (3, 3), (4, 2), (4, 3), (5, 2), (5, 3), (6, 2),
                       (6, 3)] : List (ℕ × ℕ)).map (fun cv =>
                         smooth cv.1 cv.2 (subsampleData flag (inputs cv.1 cv.2)).spectra) :=
                   forall₂_map_eq (List.Forall₂.imp (fun cv s' hs => hs.1) hrest)
                 have hen : all.energy = (subsampleData flag (inputs 2 2)).energy := by
                   rw [hA2, hfold.2.2.2, hhead.2]
                 rw [hA4, hfold.2.2.1, hhead.1, hmap]
                 simp only [hen]
                 simp [cnValencePairs, List.append_assoc])
    )

end Xanes

namespace Xanes

/-- Witness for C5: on trivial inputs the pipeline through the
descriptor stage succeeds and the energy axis the descriptor stage
sees is confined to `[7100, 7200]`. -/
theorem smoothing_before_descriptors_witness :
    ∃ out, loadSpectra (fun _ _ x => x) (fun _ _ => wSubInput) [] [] 7100 7200 false
        = some out ∧ (∀ e ∈ out.energy, 7100 ≤ e ∧ e ≤ 7200) := by
  have hs : (Option.map (calc_descriptors wExtract wGood false "generated/pca_data.pkl")
      (loadSpectra (fun _ _ x => x) (fun _ _ => wSubInput) [] [] 7100 7200 false)).isSome
      = true := by decide
  obtain ⟨out, h1, _, h3, _⟩ := smoothing_before_descriptors (fun _ _ x => x)
    (fun _ _ => wSubInput) [] [] false wExtract wGood false "generated/pca_data.pkl" _
    (Option.some_get hs).symm
  exact ⟨out, h1, h3⟩

end Xanes
